import Mathlib

/-! rotatelogs-lzo: the collection-and-rotation engine of `main.go`

A shallow embedding of the aggregator loop of `main.go` (the closure `reopen`,
the `select` loop of `main` and the shutdown path), of the per-connection line
reader, of the path templater `strftime` and of the level normalisation done by
`init`, followed by theorems about them.

Go strings and buffers are byte sequences: they are lists of `Byte` here.
Calls into the operating system and into the compressor are modelled by
explicit outcomes supplied with each event.
-/

namespace RotateLogs

/-- A byte of a Go string or of a `bytes.Buffer`. -/
abbrev Byte := UInt8

/-- The bytes of an ASCII text, used to write inputs down legibly. -/
def ascii (s : String) : List Byte := s.toList.map (fun c => UInt8.ofNat c.toNat)

/-! ## The output session and the world around it -/

/-- What one call of `(*lzo.Writer).Write(p)` returns: the number of bytes it
accepted and whether the error is non-nil. -/
structure WriteResult where
  n : Nat
  err : Bool
deriving DecidableEq

/-- The behaviour of the compressor at one call of `Write`, as a function of
the slice handed to it. -/
abbrev Write := List Byte → WriteResult

/-- A compressor write that accepts the whole slice and returns a nil error. -/
def Write.ok : Write := fun p => ⟨p.length, false⟩

/-- The variables of `main` that `reopen` and the loop share: `buf`, `file`,
`lzoWriter` and `path`. A file is named by a handle number; a compressor is
named by the handle of the file it wraps; `none` is Go's `nil`. -/
@[ext] structure Session where
  buf : List Byte
  file : Option Nat
  lzoWriter : Option Nat
  path : List Byte
deriving DecidableEq

/-- The part of the outside world the session acts on. -/
structure World where
  /-- Handles returned by `os.Create` and not closed since. -/
  openFiles : List Nat
  /-- The handle the next successful `os.Create` returns. -/
  nextFd : Nat
  /-- Bytes accepted by the compressors, in the order of the writes, each
  with the compressor that accepted them. -/
  sink : List (Nat × List Byte)
  /-- Paths of the successful `os.Create` calls, in order. -/
  created : List (List Byte)
  /-- Compressors on which `Close` was called, in order. -/
  closedWriters : List Nat
  /-- Number of `log.Println` calls made. -/
  logged : Nat
deriving DecidableEq

/-- The state of the aggregator: its variables and the world. -/
structure State extends Session, World
deriving DecidableEq

/-- All bytes accepted by the compressors so far, concatenated in order. -/
def State.sinkBytes (s : State) : List Byte := (s.sink.map Prod.snd).flatten

/-- The effect of `log.Println(err)`. -/
def State.log (s : State) : State := { s with logged := s.logged + 1 }

/-- The guarded call `if l0 != nil { l0.Close() }` on a compressor. -/
def State.closeWriter (s : State) (l0 : Option Nat) : State :=
  match l0 with
  | some z => { s with closedWriters := s.closedWriters ++ [z] }
  | none => s

/-- The guarded call `if f0 != nil { f0.Close() }` on a file: its handle is
open no more. -/
def State.closeFile (s : State) (f0 : Option Nat) : State :=
  match f0 with
  | some f => { s with openFiles := s.openFiles.filter (fun h => h != f) }
  | none => s

/-- A successful `os.Create(path)`: a new handle, `s.nextFd`, is open. -/
def State.create (s : State) (path : List Byte) : State :=
  { s with openFiles := s.nextFd :: s.openFiles, nextFd := s.nextFd + 1,
           created := s.created ++ [path] }

/-- The call `buf.WriteTo(lzoWriter)` of `bytes.Buffer`. A non-empty buffer is
handed to the writer in one `Write`; the bytes the writer accepted are consumed
and the others stay in the buffer; the buffer is reset only when the write
accepted everything without error. The result carries whether `WriteTo`
returned a non-nil error (the writer's own, or `io.ErrShortWrite`). `none` is a
panic: a nil `*lzo.Writer` is dereferenced by `Write`, and `WriteTo` panics on a
write count larger than the slice. -/
def WriteTo (s : State) (w : Write) : Option (State × Bool) :=
  if s.buf.length > 0 then
    match s.lzoWriter with
    | none => none
    | some z =>
      let r := w s.buf
      if r.n > s.buf.length then none
      else
        some ({ s with buf := s.buf.drop r.n, sink := s.sink ++ [(z, s.buf.take r.n)] },
              r.err || r.n != s.buf.length)
  else some ({ s with buf := [] }, false)

/-- The statement `if _, err := buf.WriteTo(lzoWriter); err != nil {
log.Println(err) }` of `reopen` and of the loop. -/
def flushLog (s : State) (w : Write) : Option State :=
  match WriteTo s w with
  | none => none
  | some (s', err) => some (if err then s'.log else s')

/-- The `case line := <-lines` branch of the loop of `main`: the spec's
`append(line)`. -/
def append (blockSizeMax : Int) (s : State) (line : List Byte) (w : Write) : Option State :=
  let flushed : Option State :=
    if (s.buf.length : Int) + (line.length : Int) > blockSizeMax then flushLog s w
    else some s
  match flushed with
  | none => none
  | some s1 => some { s1 with buf := s1.buf ++ line }

/-! ## The path templater -/

/-- Scanning loop of `strings.Replace(s, old, new, -1)`: the first argument
counts the bytes of a matched occurrence of `old` that are still to be skipped;
occurrences are matched left to right and do not overlap. -/
def replaceFrom (old new : List Byte) : Nat → List Byte → List Byte
  | _, [] => []
  | k + 1, _ :: cs => replaceFrom old new k cs
  | 0, c :: cs =>
    if old.isPrefixOf (c :: cs) then new ++ replaceFrom old new (old.length - 1) cs
    else c :: replaceFrom old new 0 cs

/-- The call `strings.Replace(s, old, new, -1)` for a non-empty `old`, as at
both call sites of `strftime`. -/
def Replace (s old new : List Byte) : List Byte := replaceFrom old new 0 s

/-- The ASCII digit of a number below ten. -/
def digit (d : Nat) : Byte := UInt8.ofNat (48 + d)

/-- Decimal digits of a natural number, most significant first; the first
argument bounds the number of digits produced. -/
def natDigits : Nat → Nat → List Byte
  | 0, _ => []
  | f + 1, n => if n < 10 then [digit n] else natDigits f (n / 10) ++ [digit (n % 10)]

/-- The call `fmt.Sprint(n)` for an integer: its decimal notation, with a
leading minus sign when negative. -/
def Sprint (n : Int) : List Byte :=
  match n with
  | Int.ofNat m => natDigits (m + 1) m
  | Int.negSucc m => 45 :: natDigits (m + 2) (m + 1)

/-- The package-level variables read by the engine: the flags `logFile`,
`blockSizeMax`, `level` and `lockMode`, and `hostname`. -/
structure Globals where
  logFile : List Byte
  blockSizeMax : Int
  level : Int
  lockMode : Int
  hostname : List Byte
deriving DecidableEq

/-- The two library functions `strftime` calls on a `time.Time`, a type left
abstract: `Time.Unix` and `_strftime.Format`, whose result is `none` when it
returns a non-nil error. -/
structure Lib (τ : Type) where
  Unix : τ → Int
  Format : List Byte → τ → Option (List Byte)

/-- Lines 38 and 39 of `strftime`: the template after the literal substitution
of `%s` by the Unix time of `now` and then of `%h` by the host name. -/
def substitute (g : Globals) (unixNow : Int) : List Byte :=
  Replace (Replace g.logFile (ascii "%s") (Sprint unixNow)) (ascii "%h") g.hostname

/-- The function `strftime`, with the value of `time.Now()` as an argument;
`none` is the return `"", err`. -/
def strftime {τ : Type} (lib : Lib τ) (g : Globals) (now : τ) : Option (List Byte) :=
  lib.Format (substitute g (lib.Unix now)) now

/-! ## Start-up -/

/-- The three level constants exported by the `lzo` package. -/
structure LzoLevels where
  BestSpeed : Int
  BestCompression : Int
  DefaultCompression : Int
deriving DecidableEq

/-- Lines 58 to 64 of `init`: the value stored back into `*level`. -/
def normalizeLevel (c : LzoLevels) (level : Int) : Int :=
  if level ≥ c.BestCompression then c.BestCompression
  else if level ≤ c.BestSpeed then c.BestSpeed
  else c.DefaultCompression

/-- The function `init`, after `flag.Parse()` and `os.Hostname()` have filled
the globals: `none` is `log.Fatalln` on a template that does not format,
otherwise the globals with the level normalised. -/
def init {τ : Type} (lib : Lib τ) (c : LzoLevels) (g : Globals) (now : τ) : Option Globals :=
  match strftime lib g now with
  | none => none
  | some _ => some { g with level := normalizeLevel c g.level }

/-! ## Rotation -/

/-- Lines 136 to 145 of `reopen`: the candidate file `output` and its
compressor become the session, the previous compressor and file are closed if
there are any, and `path` is updated. -/
def State.install (s : State) (output : Nat) (pathNew : List Byte) : State :=
  let l0 := s.lzoWriter
  let f0 := s.file
  let s3 : State := { s with lzoWriter := some output, file := some output }
  { (s3.closeWriter l0).closeFile f0 with path := pathNew }

/-- Outcomes of the calls `reopen` makes outside the program, for one call of
`reopen`: the compressor write of the flush, `os.Create`, `syscall.Flock` and
`lzo.NewWriterLevel` (`true` is a nil error). The result of `os.MkdirAll` is
ignored by the code. -/
structure Syscalls where
  write : Write
  create : Bool
  flock : Bool
  newWriter : Bool

/-- The closure `reopen` of `main`, with the value of `time.Now()` and the
outcomes of its outside calls as arguments; `none` is a panic. -/
def reopen {τ : Type} (lib : Lib τ) (g : Globals) (s : State) (now : τ) (o : Syscalls) :
    Option State :=
  let pathNew := (strftime lib g now).getD []
  if pathNew = s.path then some s
  else
    let flushed : Option State :=
      if s.buf.length > 0 then flushLog s o.write else some s
    match flushed with
    | none => none
    | some s1 =>
      if !o.create then some s1.log
      else
        let output := s1.nextFd
        let s2 := s1.create pathNew
        if g.lockMode > 0 && !o.flock then some s2.log
        else if !o.newWriter then some s2.log
        else some (s2.install output pathNew)

/-! ## The event loop -/

/-- One event delivered by the `select` of `main`, with what the outside world
answers while it is handled. -/
inductive Event (τ : Type) where
  | sig
  | tick (now : τ) (o : Syscalls)
  | conn
  | line (l : List Byte) (w : Write)

/-- The body of one `select` case other than the signal. -/
def handle {τ : Type} (lib : Lib τ) (g : Globals) (s : State) : Event τ → Option State
  | Event.sig => some s
  | Event.tick now o => reopen lib g s now o
  | Event.conn => some s
  | Event.line l w => append g.blockSizeMax s l w

/-- The loop `for alive` of `main` on the events in the order `select`
delivers them: the state at loop exit. It exits at the first signal, and events
behind it are not read. `none` is a panic, or a list of events without a signal,
on which the loop never exits. -/
def loop {τ : Type} (lib : Lib τ) (g : Globals) : State → List (Event τ) → Option State
  | _, [] => none
  | s, Event.sig :: _ => some s
  | s, e :: es =>
    match handle lib g s e with
    | none => none
    | some s' => loop lib g s' es

/-- Lines 186 to 194 of `main`: the final flush, whose error is not looked at,
and the two `Close` calls. -/
def shutdown (s : State) (w : Write) : Option State :=
  let flushed : Option State :=
    if s.buf.length > 0 then (WriteTo s w).map Prod.fst else some s
  match flushed with
  | none => none
  | some s1 => some ((s1.closeWriter s1.lzoWriter).closeFile s1.file)

/-- The loop and the shutdown path of `main`, from a given state. -/
def mainFrom {τ : Type} (lib : Lib τ) (g : Globals) (s : State) (events : List (Event τ))
    (final : Write) : Option State :=
  match loop lib g s events with
  | none => none
  | some s' => shutdown s' final

/-- The state of `main` before its first call of `reopen`. -/
def State.initial : State :=
  { buf := [], file := none, lzoWriter := none, path := [],
    openFiles := [], nextFd := 0, sink := [], created := [], closedWriters := [], logged := 0 }

/-- The function `main` once `startTCP` has succeeded: the first `reopen`, the
loop and the shutdown path. -/
def main {τ : Type} (lib : Lib τ) (g : Globals) (now : τ) (o : Syscalls)
    (events : List (Event τ)) (final : Write) : Option State :=
  match reopen lib g State.initial now o with
  | none => none
  | some s => mainFrom lib g s events final

/-! ## The line reader -/

/-- The newline byte. -/
def newline : Byte := 10

/-- The carriage-return byte. -/
def carriageReturn : Byte := 13

/-- The constant `bufio.MaxScanTokenSize`: the size to which the buffer of a
`bufio.Scanner` may grow. -/
def MaxScanTokenSize : Nat := 64 * 1024

/-- The function `dropCR` of package `bufio`. -/
def dropCR (data : List Byte) : List Byte :=
  if data.getLast? = some carriageReturn then data.dropLast else data

/-- The function `bytes.IndexByte`: the index of the first occurrence of `c`
in `data`, `none` for Go's `-1`. -/
def IndexByte : List Byte → Byte → Option Nat
  | [], _ => none
  | b :: bs, c => if b = c then some 0 else (IndexByte bs c).map (fun i => i + 1)

/-- The split function `bufio.ScanLines`: the number of bytes to advance and
the token, `none` for a nil token. -/
def ScanLines (data : List Byte) (atEOF : Bool) : Nat × Option (List Byte) :=
  if atEOF && data.length == 0 then (0, none)
  else
    match IndexByte data newline with
    | some i => (i + 1, some (dropCR (data.take i)))
    | none => if atEOF then (data.length, some (dropCR data)) else (0, none)

/-- The tokens returned by the successive calls of `scanner.Scan()` with the
split function `bufio.ScanLines`, on the bytes `data` that the connection
delivers from here to its close. The first argument bounds the number of
calls. The buffer of the scanner holds up to `MaxScanTokenSize` pending bytes,
and the split function sees the end of the stream when the pending bytes leave
room in it; a call that finds no token ends the scan, at the end of the stream
or with `ErrTooLong` on a full buffer. -/
def scanTokens : Nat → List Byte → List (List Byte)
  | 0, _ => []
  | fuel + 1, data =>
    match ScanLines (data.take MaxScanTokenSize) (decide (data.length < MaxScanTokenSize)) with
    | (advance, some token) => token :: scanTokens fuel (data.drop advance)
    | (_, none) => []

/-- The goroutine started by `case c := <-conns`: the lines it sends into
`lines` when the connection delivers `data` and is then closed. -/
def lineReader (data : List Byte) : List (List Byte) :=
  (scanTokens (data.length + 1) data).filterMap
    (fun text => if text.length > 0 then some (text ++ [newline]) else none)

/-! ## Inputs used in examples -/

/-- A library instance for templates without directives, which
`_strftime.Format` returns as they are: times are their Unix seconds, and a
template that still holds a percent sign is refused. -/
def Lib.plain : Lib Int :=
  { Unix := fun t => t
    Format := fun s _ => if (37 : Byte) ∈ s then none else some s }

/-- A session open on the file `a`, with handle 0 and an empty buffer. -/
def State.opened : State :=
  { buf := [], file := some 0, lzoWriter := some 0, path := ascii "a",
    openFiles := [0], nextFd := 1, sink := [], created := [ascii "a"],
    closedWriters := [], logged := 0 }

/-- A compressor write that accepts `n` bytes and then returns an error. -/
def Write.failAfter (n : Nat) : Write := fun _ => ⟨n, true⟩

/-! ## Notions used in the statements -/

/-- The relation between the state `s` before a flush through the compressor
behaviour `w` and the state `s1` after it: the bytes the compressor accepted
have moved from the buffer to the sink, and nothing else but the log has
changed. -/
def Flushed (s : State) (w : Write) (s1 : State) : Prop :=
  s1.buf = s.buf.drop (w s.buf).n ∧
  s1.sinkBytes = s.sinkBytes ++ s.buf.take (w s.buf).n ∧
  s1.file = s.file ∧ s1.lzoWriter = s.lzoWriter ∧ s1.path = s.path ∧
  s1.openFiles = s.openFiles ∧ s1.nextFd = s.nextFd ∧ s1.created = s.created ∧
  s1.closedWriters = s.closedWriters ∧
  (s1.sink = s.sink ∨
    ∃ z, s.lzoWriter = some z ∧ s1.sink = s.sink ++ [(z, s.buf.take (w s.buf).n)])

/-- The bytes accepted by the compressor of the file with handle `h`, in the
order of the writes. -/
def State.bytesOf (s : State) (h : Nat) : List Byte :=
  ((s.sink.filter (fun p => p.1 == h)).map Prod.snd).flatten

/-- The bytes accepted by the compressors, concatenated file after file in the
order in which the files were created. -/
def State.bytesByFile (s : State) : List Byte :=
  ((List.range s.nextFd).map s.bytesOf).flatten

/-- The compressor in use wraps a file created earlier and no older compressor
has been written to after a newer one: the writes recorded in the sink go to
files in the order of their creation. -/
def State.ordered (s : State) : Prop :=
  (∃ z, s.lzoWriter = some z ∧ z < s.nextFd ∧ ∀ p ∈ s.sink, p.1 ≤ z) ∧
  s.sink.Pairwise (fun a b => a.1 ≤ b.1)

/-- Every byte the aggregator has taken in and not lost: those accepted by the
compressors followed by those still in the buffer. -/
def State.total (s : State) : List Byte := s.sinkBytes ++ s.buf

/-- The line an event delivers, empty for the other events. -/
def Event.lineOf {τ : Type} : Event τ → List Byte
  | Event.line l _ => l
  | _ => []

/-- The received lines of a sequence of events, concatenated in order. -/
def received {τ : Type} (es : List (Event τ)) : List Byte := (es.map Event.lineOf).flatten

/-- An event other than the signal during which every compressor write
succeeds. -/
def Event.writesOk {τ : Type} : Event τ → Prop
  | Event.sig => False
  | Event.tick _ o => o.write = Write.ok
  | Event.conn => True
  | Event.line _ w => w = Write.ok

/-- A sequence of `append` calls, each line with the behaviour of the
compressor during its call. -/
def appendAll (blockSizeMax : Int) : State → List (List Byte × Write) → Option State
  | s, [] => some s
  | s, (l, w) :: rest =>
    match append blockSizeMax s l w with
    | none => none
    | some s' => appendAll blockSizeMax s' rest

/-- The length of the longest of a list of lines. -/
def longest (ls : List (List Byte)) : Nat := (ls.map List.length).foldr max 0

/-- The segments of a text joined by a separator. -/
def joinWith (sep : List Byte) : List (List Byte) → List Byte
  | [] => []
  | [x] => x
  | x :: y :: rest => x ++ sep ++ joinWith sep (y :: rest)

/-- A stream made of newline-terminated lines. -/
def terminated (ls : List (List Byte)) : List Byte :=
  (ls.map (fun l => l ++ [newline])).flatten

/-- What the line reader sends for one line of the stream, given without its
newline: nothing if the line is empty once a final carriage return is dropped,
else the line without that carriage return and with a newline appended. -/
def forwarded (l : List Byte) : List (List Byte) :=
  if (dropCR l).length > 0 then [dropCR l ++ [newline]] else []

/-! # Theorems -/

/-! ## Projections of the elementary effects -/

@[simp] theorem log_toSession (s : State) : s.log.toSession = s.toSession := rfl
@[simp] theorem log_openFiles (s : State) : s.log.openFiles = s.openFiles := rfl
@[simp] theorem log_nextFd (s : State) : s.log.nextFd = s.nextFd := rfl
@[simp] theorem log_sink (s : State) : s.log.sink = s.sink := rfl
@[simp] theorem log_created (s : State) : s.log.created = s.created := rfl
@[simp] theorem log_closedWriters (s : State) : s.log.closedWriters = s.closedWriters := rfl
@[simp] theorem log_sinkBytes (s : State) : s.log.sinkBytes = s.sinkBytes := rfl

@[simp] theorem create_toSession (s : State) (p : List Byte) :
    (s.create p).toSession = s.toSession := rfl
@[simp] theorem create_openFiles (s : State) (p : List Byte) :
    (s.create p).openFiles = s.nextFd :: s.openFiles := rfl
@[simp] theorem create_nextFd (s : State) (p : List Byte) :
    (s.create p).nextFd = s.nextFd + 1 := rfl
@[simp] theorem create_sink (s : State) (p : List Byte) : (s.create p).sink = s.sink := rfl
@[simp] theorem create_created (s : State) (p : List Byte) :
    (s.create p).created = s.created ++ [p] := rfl
@[simp] theorem create_closedWriters (s : State) (p : List Byte) :
    (s.create p).closedWriters = s.closedWriters := rfl
@[simp] theorem create_sinkBytes (s : State) (p : List Byte) :
    (s.create p).sinkBytes = s.sinkBytes := rfl

@[simp] theorem closeWriter_toSession (s : State) (l0 : Option Nat) :
    (s.closeWriter l0).toSession = s.toSession := by
  cases l0 <;> rfl
@[simp] theorem closeWriter_openFiles (s : State) (l0 : Option Nat) :
    (s.closeWriter l0).openFiles = s.openFiles := by
  cases l0 <;> rfl
@[simp] theorem closeWriter_nextFd (s : State) (l0 : Option Nat) :
    (s.closeWriter l0).nextFd = s.nextFd := by
  cases l0 <;> rfl
@[simp] theorem closeWriter_sink (s : State) (l0 : Option Nat) :
    (s.closeWriter l0).sink = s.sink := by
  cases l0 <;> rfl
@[simp] theorem closeWriter_created (s : State) (l0 : Option Nat) :
    (s.closeWriter l0).created = s.created := by
  cases l0 <;> rfl
@[simp] theorem closeWriter_closedWriters_some (s : State) (z : Nat) :
    (s.closeWriter (some z)).closedWriters = s.closedWriters ++ [z] := rfl

@[simp] theorem closeFile_toSession (s : State) (f0 : Option Nat) :
    (s.closeFile f0).toSession = s.toSession := by
  cases f0 <;> rfl
@[simp] theorem closeFile_nextFd (s : State) (f0 : Option Nat) :
    (s.closeFile f0).nextFd = s.nextFd := by
  cases f0 <;> rfl
@[simp] theorem closeFile_sink (s : State) (f0 : Option Nat) :
    (s.closeFile f0).sink = s.sink := by
  cases f0 <;> rfl
@[simp] theorem closeFile_created (s : State) (f0 : Option Nat) :
    (s.closeFile f0).created = s.created := by
  cases f0 <;> rfl
@[simp] theorem closeFile_closedWriters (s : State) (f0 : Option Nat) :
    (s.closeFile f0).closedWriters = s.closedWriters := by
  cases f0 <;> rfl
@[simp] theorem closeFile_openFiles_some (s : State) (f : Nat) :
    (s.closeFile (some f)).openFiles = s.openFiles.filter (fun h => h != f) := rfl

@[simp] theorem install_buf (s : State) (o : Nat) (p : List Byte) :
    (s.install o p).buf = s.buf := by
  show ((({ s with lzoWriter := some o, file := some o } : State).closeWriter
    s.lzoWriter).closeFile s.file).toSession.buf = s.buf
  simp
@[simp] theorem install_lzoWriter (s : State) (o : Nat) (p : List Byte) :
    (s.install o p).lzoWriter = some o := by
  show ((({ s with lzoWriter := some o, file := some o } : State).closeWriter
    s.lzoWriter).closeFile s.file).toSession.lzoWriter = some o
  simp
@[simp] theorem install_file (s : State) (o : Nat) (p : List Byte) :
    (s.install o p).file = some o := by
  show ((({ s with lzoWriter := some o, file := some o } : State).closeWriter
    s.lzoWriter).closeFile s.file).toSession.file = some o
  simp
@[simp] theorem install_path (s : State) (o : Nat) (p : List Byte) :
    (s.install o p).path = p := rfl
@[simp] theorem install_nextFd (s : State) (o : Nat) (p : List Byte) :
    (s.install o p).nextFd = s.nextFd := by
  show ((({ s with lzoWriter := some o, file := some o } : State).closeWriter
    s.lzoWriter).closeFile s.file).nextFd = s.nextFd
  simp
@[simp] theorem install_sink (s : State) (o : Nat) (p : List Byte) :
    (s.install o p).sink = s.sink := by
  show ((({ s with lzoWriter := some o, file := some o } : State).closeWriter
    s.lzoWriter).closeFile s.file).sink = s.sink
  simp
@[simp] theorem install_created (s : State) (o : Nat) (p : List Byte) :
    (s.install o p).created = s.created := by
  show ((({ s with lzoWriter := some o, file := some o } : State).closeWriter
    s.lzoWriter).closeFile s.file).created = s.created
  simp

theorem buf_eq (s : State) : s.toSession.buf = s.buf := rfl
theorem file_eq (s : State) : s.toSession.file = s.file := rfl
theorem lzoWriter_eq (s : State) : s.toSession.lzoWriter = s.lzoWriter := rfl
theorem length_pos_of_ne_nil {α : Type} (l : List α) (h : l ≠ []) : l.length > 0 :=
  List.length_pos.mpr h

theorem eq_nil_of_not_length_pos {α : Type} (l : List α) (h : ¬ l.length > 0) : l = [] := by
  cases l with
  | nil => rfl
  | cons a t => simp at h

/-! ## Flushing -/

theorem WriteTo_some (s : State) (w : Write) (z : Nat) (hz : s.lzoWriter = some z)
    (hb : s.buf.length > 0) (hn : (w s.buf).n ≤ s.buf.length) :
    WriteTo s w =
      some ({ s with buf := s.buf.drop (w s.buf).n,
                     sink := s.sink ++ [(z, s.buf.take (w s.buf).n)] },
            (w s.buf).err || (w s.buf).n != s.buf.length) := by
  unfold WriteTo
  simp [hb, hz, Nat.not_lt.mpr hn]

theorem WriteTo_nil (s : State) (w : Write) (hb : s.buf = []) :
    WriteTo s w = some ({ s with buf := [] }, false) := by
  unfold WriteTo
  simp [hb]

theorem Flushed_refl (s : State) (w : Write) (hb : s.buf = []) : Flushed s w s := by
  simp [Flushed, hb]

theorem Flushed_log (s : State) (w : Write) (s1 : State) (h : Flushed s w s1) :
    Flushed s w s1.log := h

theorem Flushed_total (s : State) (w : Write) (s1 : State) (h : Flushed s w s1) :
    s1.total = s.total := by
  obtain ⟨h1, h2, _⟩ := h
  simp [State.total, h1, h2]

/-- The result of `buf.WriteTo(lzoWriter)` when it does not panic. -/
theorem WriteTo_spec (s : State) (w : Write)
    (h : s.buf ≠ [] → (∃ z, s.lzoWriter = some z) ∧ (w s.buf).n ≤ s.buf.length) :
    ∃ s1 err, WriteTo s w = some (s1, err) ∧ Flushed s w s1 ∧
      (s.buf ≠ [] → err = ((w s.buf).err || (w s.buf).n != s.buf.length)) := by
  by_cases hb : s.buf = []
  · refine ⟨_, _, WriteTo_nil s w hb, ?_, fun h' => absurd hb h'⟩
    simp [Flushed, hb, State.sinkBytes]
  · obtain ⟨⟨z, hz⟩, hn⟩ := h hb
    refine ⟨_, _, WriteTo_some s w z hz (length_pos_of_ne_nil _ hb) hn, ?_, fun _ => rfl⟩
    simp [Flushed, State.sinkBytes, hz]

theorem flushLog_spec (s : State) (w : Write)
    (h : s.buf ≠ [] → (∃ z, s.lzoWriter = some z) ∧ (w s.buf).n ≤ s.buf.length) :
    ∃ s1, flushLog s w = some s1 ∧ Flushed s w s1 := by
  obtain ⟨s1, err, h1, h2, _⟩ := WriteTo_spec s w h
  unfold flushLog
  rw [h1]
  cases err
  · exact ⟨s1, rfl, h2⟩
  · exact ⟨s1.log, rfl, Flushed_log s w s1 h2⟩

/-- The flush at the head of `reopen` when it does not panic. -/
theorem preFlush_spec (s : State) (w : Write)
    (h : s.buf ≠ [] → (∃ z, s.lzoWriter = some z) ∧ (w s.buf).n ≤ s.buf.length) :
    ∃ s1, (if s.buf.length > 0 then flushLog s w else some s) = some s1 ∧ Flushed s w s1 := by
  by_cases hlen : s.buf.length > 0
  · rw [if_pos hlen]
    exact flushLog_spec s w h
  · rw [if_neg hlen]
    exact ⟨s, rfl, Flushed_refl s w (eq_nil_of_not_length_pos _ hlen)⟩

/-! ## The paths through `reopen` -/

theorem reopen_noop {τ : Type} (lib : Lib τ) (g : Globals) (s : State) (now : τ) (o : Syscalls)
    (hp : (strftime lib g now).getD [] = s.path) : reopen lib g s now o = some s := by
  unfold reopen
  simp [hp]

theorem reopen_create_fails {τ : Type} (lib : Lib τ) (g : Globals) (s s1 : State) (now : τ)
    (o : Syscalls) (hp : (strftime lib g now).getD [] ≠ s.path)
    (hf : (if s.buf.length > 0 then flushLog s o.write else some s) = some s1)
    (hc : o.create = false) : reopen lib g s now o = some s1.log := by
  unfold reopen
  simp only [hp, if_false, hf, hc, Bool.not_false, if_true]

theorem reopen_flock_fails {τ : Type} (lib : Lib τ) (g : Globals) (s s1 : State) (now : τ)
    (o : Syscalls) (hp : (strftime lib g now).getD [] ≠ s.path)
    (hf : (if s.buf.length > 0 then flushLog s o.write else some s) = some s1)
    (hc : o.create = true) (hl : g.lockMode > 0) (hk : o.flock = false) :
    reopen lib g s now o = some (s1.create ((strftime lib g now).getD [])).log := by
  unfold reopen
  simp [hp, hf, hc, hl, hk]

theorem reopen_newWriter_fails {τ : Type} (lib : Lib τ) (g : Globals) (s s1 : State) (now : τ)
    (o : Syscalls) (hp : (strftime lib g now).getD [] ≠ s.path)
    (hf : (if s.buf.length > 0 then flushLog s o.write else some s) = some s1)
    (hc : o.create = true) (hn : o.newWriter = false) :
    reopen lib g s now o = some (s1.create ((strftime lib g now).getD [])).log := by
  unfold reopen
  simp only [hp, if_false, hf, hc, hn, Bool.not_true, Bool.false_eq_true, Bool.not_false, if_true]
  split <;> rfl

theorem reopen_swaps {τ : Type} (lib : Lib τ) (g : Globals) (s s1 : State) (now : τ)
    (o : Syscalls) (hp : (strftime lib g now).getD [] ≠ s.path)
    (hf : (if s.buf.length > 0 then flushLog s o.write else some s) = some s1)
    (hc : o.create = true) (hl : g.lockMode > 0 → o.flock = true) (hn : o.newWriter = true) :
    reopen lib g s now o =
      some ((s1.create ((strftime lib g now).getD [])).install s1.nextFd
        ((strftime lib g now).getD [])) := by
  unfold reopen
  have hlk : (decide (g.lockMode > 0) && !o.flock) = false := by
    by_cases h : g.lockMode > 0
    · simp [hl h]
    · simp [h]
  simp only [hp, if_false, hf, hc, hn, hlk, Bool.not_true, Bool.false_eq_true]

theorem ok_no_panic (s : State) (z : Nat) (hz : s.lzoWriter = some z) :
    s.buf ≠ [] → (∃ z, s.lzoWriter = some z) ∧ (Write.ok s.buf).n ≤ s.buf.length :=
  fun _ => ⟨⟨z, hz⟩, Nat.le_refl _⟩

theorem Flushed_ok_buf (s s1 : State) (h : Flushed s Write.ok s1) : s1.buf = [] := by
  have := h.1
  simpa [Write.ok] using this

/-- The three ways in which `reopen` ends once the candidate path differs from
the active one and the flush has led to `s1`: abandoned before or after the
creation of the candidate file, or completed. -/
theorem reopen_cases {τ : Type} (lib : Lib τ) (g : Globals) (s s1 : State) (now : τ)
    (o : Syscalls) (hp : (strftime lib g now).getD [] ≠ s.path)
    (hf : (if s.buf.length > 0 then flushLog s o.write else some s) = some s1) :
    reopen lib g s now o = some s1.log ∨
    reopen lib g s now o = some (s1.create ((strftime lib g now).getD [])).log ∨
    reopen lib g s now o =
      some ((s1.create ((strftime lib g now).getD [])).install s1.nextFd
        ((strftime lib g now).getD [])) := by
  by_cases hc : o.create = true
  · by_cases hn : o.newWriter = true
    · by_cases hl : g.lockMode > 0 → o.flock = true
      · exact Or.inr (Or.inr (reopen_swaps lib g s s1 now o hp hf hc hl hn))
      · have h1 : g.lockMode > 0 := by
          by_contra h'
          exact hl (fun h'' => absurd h'' h')
        have h2 : o.flock = false := by
          cases hk : o.flock with
          | false => rfl
          | true => exact absurd (fun _ => hk) hl
        exact Or.inr (Or.inl (reopen_flock_fails lib g s s1 now o hp hf hc h1 h2))
    · have hn' : o.newWriter = false := by simpa using hn
      exact Or.inr (Or.inl (reopen_newWriter_fails lib g s s1 now o hp hf hc hn'))
  · have hc' : o.create = false := by simpa using hc
    exact Or.inl (reopen_create_fails lib g s s1 now o hp hf hc')

/-! ## The round trip -/

theorem append_ok (blockSizeMax : Int) (s : State) (l : List Byte) (z f : Nat)
    (hz : s.lzoWriter = some z) (hf : s.file = some f) :
    ∃ s', append blockSizeMax s l Write.ok = some s' ∧ s'.total = s.total ++ l ∧
      s'.lzoWriter = some z ∧ s'.file = some f := by
  unfold append
  by_cases h : (s.buf.length : Int) + (l.length : Int) > blockSizeMax
  · obtain ⟨s1, h1, h2⟩ := flushLog_spec s Write.ok (ok_no_panic s z hz)
    rw [if_pos h, h1]
    refine ⟨_, rfl, ?_, h2.2.2.2.1.trans hz, h2.2.2.1.trans hf⟩
    have ht := Flushed_total s Write.ok s1 h2
    simp only [State.total] at ht ⊢
    show s1.sinkBytes ++ (s1.buf ++ l) = _
    rw [← List.append_assoc, ht]
  · rw [if_neg h]
    refine ⟨_, rfl, ?_, hz, hf⟩
    simp only [State.total]
    show s.sinkBytes ++ (s.buf ++ l) = _
    rw [List.append_assoc]

theorem reopen_ok {τ : Type} (lib : Lib τ) (g : Globals) (s : State) (now : τ) (o : Syscalls)
    (z f : Nat) (hz : s.lzoWriter = some z) (hf : s.file = some f) (hw : o.write = Write.ok) :
    ∃ s' z' f', reopen lib g s now o = some s' ∧ s'.total = s.total ∧
      s'.lzoWriter = some z' ∧ s'.file = some f' := by
  by_cases hp : (strftime lib g now).getD [] = s.path
  · exact ⟨s, z, f, reopen_noop lib g s now o hp, rfl, hz, hf⟩
  · obtain ⟨s1, h1, h2⟩ := preFlush_spec s o.write (by rw [hw]; exact ok_no_panic s z hz)
    have ht := Flushed_total s o.write s1 h2
    have hz1 : s1.lzoWriter = some z := h2.2.2.2.1.trans hz
    have hf1 : s1.file = some f := h2.2.2.1.trans hf
    rcases reopen_cases lib g s s1 now o hp h1 with h | h | h
    · exact ⟨_, z, f, h, ht, hz1, hf1⟩
    · exact ⟨_, z, f, h, ht, hz1, hf1⟩
    · refine ⟨_, s1.nextFd, s1.nextFd, h, ?_, ?_, ?_⟩
      · rw [← ht]
        simp [State.total, State.sinkBytes]
      · simp
      · simp

theorem handle_ok {τ : Type} (lib : Lib τ) (g : Globals) (s : State) (e : Event τ)
    (z f : Nat) (hz : s.lzoWriter = some z) (hf : s.file = some f) (he : e.writesOk) :
    ∃ s' z' f', handle lib g s e = some s' ∧ s'.total = s.total ++ e.lineOf ∧
      s'.lzoWriter = some z' ∧ s'.file = some f' := by
  cases e with
  | sig => exact absurd he (by simp [Event.writesOk])
  | tick now o =>
    obtain ⟨s', z', f', h1, h2, h3, h4⟩ := reopen_ok lib g s now o z f hz hf he
    exact ⟨s', z', f', h1, by simpa [Event.lineOf] using h2, h3, h4⟩
  | conn => exact ⟨s, z, f, rfl, by simp [Event.lineOf], hz, hf⟩
  | line l w =>
    have hw : w = Write.ok := he
    subst hw
    obtain ⟨s', h1, h2, h3, h4⟩ := append_ok g.blockSizeMax s l z f hz hf
    exact ⟨s', z, f, h1, h2, h3, h4⟩

theorem loop_ok {τ : Type} (lib : Lib τ) (g : Globals) (es : List (Event τ)) :
    ∀ (s : State) (z f : Nat), s.lzoWriter = some z → s.file = some f →
      (∀ e ∈ es, e.writesOk) →
      ∃ s' z' f', loop lib g s (es ++ [Event.sig]) = some s' ∧
        s'.total = s.total ++ received es ∧ s'.lzoWriter = some z' ∧ s'.file = some f' := by
  induction es with
  | nil =>
    intro s z f hz hf _
    exact ⟨s, z, f, by simp [loop], by simp [received], hz, hf⟩
  | cons e es ih =>
    intro s z f hz hf hes
    have he : e.writesOk := hes e (List.mem_cons_self _ _)
    obtain ⟨s1, z1, f1, h1, h2, h3, h4⟩ := handle_ok lib g s e z f hz hf he
    obtain ⟨s2, z2, f2, k1, k2, k3, k4⟩ :=
      ih s1 z1 f1 h3 h4 (fun e' he' => hes e' (List.mem_cons_of_mem _ he'))
    refine ⟨s2, z2, f2, ?_, ?_, k3, k4⟩
    · cases e with
      | sig => exact absurd he (by simp [Event.writesOk])
      | tick now o => simpa [loop, h1] using k1
      | conn => simpa [loop, h1] using k1
      | line l w => simpa [loop, h1] using k1
    · rw [k2, h2]
      simp [received]

theorem shutdown_ok (s : State) (z f : Nat) (hz : s.lzoWriter = some z) (hf : s.file = some f) :
    ∃ s', shutdown s Write.ok = some s' ∧ s'.sinkBytes = s.total ∧ s'.buf = [] ∧
      s'.lzoWriter = some z ∧ z ∈ s'.closedWriters ∧ s'.file = some f ∧ f ∉ s'.openFiles := by
  have key : ∃ s1, (if s.buf.length > 0 then (WriteTo s Write.ok).map Prod.fst else some s)
      = some s1 ∧ Flushed s Write.ok s1 := by
    by_cases hlen : s.buf.length > 0
    · obtain ⟨s1, err, h1, h2, _⟩ := WriteTo_spec s Write.ok (ok_no_panic s z hz)
      exact ⟨s1, by rw [if_pos hlen, h1]; rfl, h2⟩
    · exact ⟨s, by rw [if_neg hlen],
        Flushed_refl s Write.ok (eq_nil_of_not_length_pos _ hlen)⟩
  obtain ⟨s1, h1, h2⟩ := key
  have hb1 := Flushed_ok_buf s s1 h2
  have ht := Flushed_total s Write.ok s1 h2
  have hz1 : s1.lzoWriter = some z := h2.2.2.2.1.trans hz
  have hf1 : s1.file = some f := h2.2.2.1.trans hf
  unfold shutdown
  simp only [h1, hz1, hf1]
  refine ⟨_, rfl, ?_, ?_, ?_, ?_, ?_, ?_⟩
  · rw [← ht]
    simp [State.total, State.sinkBytes, hb1]
  · rw [← buf_eq]
    simpa using hb1
  · rw [← lzoWriter_eq]
    simpa using hz1
  · simp
  · rw [← file_eq]
    simpa using hf1
  · simp

/-! ## Writes go to the files in the order of their creation -/

theorem WriteTo_flushed (s s1 : State) (w : Write) (err : Bool)
    (h : WriteTo s w = some (s1, err)) : Flushed s w s1 := by
  unfold WriteTo at h
  by_cases hlen : s.buf.length > 0
  · rw [if_pos hlen] at h
    cases hz : s.lzoWriter with
    | none => rw [hz] at h; exact absurd h (by simp)
    | some z =>
      rw [hz] at h
      by_cases hn : (w s.buf).n > s.buf.length
      · simp [hn] at h
      · simp only [hn, if_false, Option.some.injEq, Prod.mk.injEq] at h
        rw [← h.1]
        simp [Flushed, State.sinkBytes, hz]
  · rw [if_neg hlen] at h
    simp only [Option.some.injEq, Prod.mk.injEq] at h
    rw [← h.1]
    simp [Flushed, eq_nil_of_not_length_pos _ hlen, State.sinkBytes]

theorem flushLog_flushed (s s1 : State) (w : Write) (h : flushLog s w = some s1) :
    Flushed s w s1 := by
  unfold flushLog at h
  cases hw : WriteTo s w with
  | none => rw [hw] at h; exact absurd h (by simp)
  | some r =>
    obtain ⟨s0, err⟩ := r
    rw [hw] at h
    have hf := WriteTo_flushed s s0 w err hw
    cases err
    · simp only [Bool.false_eq_true, if_false, Option.some.injEq] at h
      rw [← h]; exact hf
    · simp only [if_true, Option.some.injEq] at h
      rw [← h]; exact Flushed_log s w s0 hf

theorem ordered_flushed (s s1 : State) (w : Write) (h : Flushed s w s1) (ho : s.ordered) :
    s1.ordered := by
  obtain ⟨⟨z, hz, hlt, hall⟩, hpw⟩ := ho
  obtain ⟨_, _, _, hlzo, _, _, hnext, _, _, hsink⟩ := h
  rcases hsink with hs | ⟨z', hz', hs⟩
  · refine ⟨⟨z, hlzo.trans hz, by rw [hnext]; exact hlt, by rw [hs]; exact hall⟩, ?_⟩
    rw [hs]; exact hpw
  · have hzz : z' = z := by rw [hz] at hz'; exact (Option.some.inj hz').symm
    subst hzz
    refine ⟨⟨z', hlzo.trans hz, by rw [hnext]; exact hlt, ?_⟩, ?_⟩
    · intro p hp
      rw [hs] at hp
      rcases List.mem_append.mp hp with h1 | h1
      · exact hall p h1
      · rw [List.mem_singleton.mp h1]
    · rw [hs, List.pairwise_append]
      refine ⟨hpw, List.pairwise_singleton _ _, ?_⟩
      intro a ha b hb
      rw [List.mem_singleton.mp hb]
      exact hall a ha

theorem ordered_create (s : State) (p : List Byte) (ho : s.ordered) : (s.create p).ordered := by
  obtain ⟨⟨z, hz, hlt, hall⟩, hpw⟩ := ho
  exact ⟨⟨z, hz, Nat.lt_succ_of_lt hlt, hall⟩, hpw⟩

theorem ordered_install (s : State) (p q : List Byte) (ho : s.ordered) :
    ((s.create p).install s.nextFd q).ordered := by
  obtain ⟨⟨z, hz, hlt, hall⟩, hpw⟩ := ho
  refine ⟨⟨s.nextFd, by simp, by simp, ?_⟩, by simpa using hpw⟩
  intro q' hq
  have hq' : q' ∈ s.sink := by simpa using hq
  exact Nat.le_of_lt (Nat.lt_of_le_of_lt (hall q' hq') hlt)

theorem ordered_close (s : State) (l0 f0 : Option Nat) (ho : s.ordered) :
    ((s.closeWriter l0).closeFile f0).ordered := by
  obtain ⟨⟨z, hz, hlt, hall⟩, hpw⟩ := ho
  refine ⟨⟨z, ?_, ?_, ?_⟩, ?_⟩
  · rw [← lzoWriter_eq]; simpa using hz
  · simpa using hlt
  · simpa using hall
  · simpa using hpw

theorem append_ordered (blockSizeMax : Int) (s s' : State) (l : List Byte) (w : Write)
    (h : append blockSizeMax s l w = some s') (ho : s.ordered) : s'.ordered := by
  unfold append at h
  by_cases hover : (s.buf.length : Int) + (l.length : Int) > blockSizeMax
  · rw [if_pos hover] at h
    cases hf : flushLog s w with
    | none => rw [hf] at h; exact absurd h (by simp)
    | some s1 =>
      rw [hf] at h
      simp only [Option.some.injEq] at h
      rw [← h]
      exact ordered_flushed s s1 w (flushLog_flushed s s1 w hf) ho
  · rw [if_neg hover] at h
    simp only [Option.some.injEq] at h
    rw [← h]
    exact ho

theorem reopen_flush_none {τ : Type} (lib : Lib τ) (g : Globals) (s : State) (now : τ)
    (o : Syscalls) (hp : (strftime lib g now).getD [] ≠ s.path)
    (hf : (if s.buf.length > 0 then flushLog s o.write else some s) = none) :
    reopen lib g s now o = none := by
  unfold reopen
  simp only [hp, if_false, hf]

theorem reopen_ordered {τ : Type} (lib : Lib τ) (g : Globals) (s s' : State) (now : τ)
    (o : Syscalls) (h : reopen lib g s now o = some s') (ho : s.ordered) : s'.ordered := by
  by_cases hp : (strftime lib g now).getD [] = s.path
  · rw [reopen_noop lib g s now o hp] at h
    rw [← Option.some.inj h]; exact ho
  · cases hf : (if s.buf.length > 0 then flushLog s o.write else some s) with
    | none => rw [reopen_flush_none lib g s now o hp hf] at h; exact absurd h (by simp)
    | some s1 =>
      have hfl : Flushed s o.write s1 := by
        by_cases hlen : s.buf.length > 0
        · rw [if_pos hlen] at hf
          exact flushLog_flushed s s1 o.write hf
        · rw [if_neg hlen] at hf
          rw [← Option.some.inj hf]
          exact Flushed_refl s o.write (eq_nil_of_not_length_pos _ hlen)
      have ho1 := ordered_flushed s s1 o.write hfl ho
      rcases reopen_cases lib g s s1 now o hp hf with h' | h' | h'
      · rw [h'] at h
        rw [← Option.some.inj h]; exact ho1
      · rw [h'] at h
        rw [← Option.some.inj h]
        exact ordered_create s1 ((strftime lib g now).getD []) ho1
      · rw [h'] at h
        rw [← Option.some.inj h]
        exact ordered_install s1 _ _ ho1

theorem handle_ordered {τ : Type} (lib : Lib τ) (g : Globals) (s s' : State) (e : Event τ)
    (h : handle lib g s e = some s') (ho : s.ordered) : s'.ordered := by
  cases e with
  | sig => rw [← Option.some.inj h]; exact ho
  | tick now o => exact reopen_ordered lib g s s' now o h ho
  | conn => rw [← Option.some.inj h]; exact ho
  | line l w => exact append_ordered g.blockSizeMax s s' l w h ho

theorem loop_ordered {τ : Type} (lib : Lib τ) (g : Globals) (es : List (Event τ)) :
    ∀ s s' : State, loop lib g s es = some s' → s.ordered → s'.ordered := by
  induction es with
  | nil => intro s s' h _; exact absurd h (by simp [loop])
  | cons e es ih =>
    intro s s' h ho
    cases e with
    | sig =>
      simp only [loop, Option.some.injEq] at h
      rw [← h]; exact ho
    | tick now o =>
      simp only [loop] at h
      cases hh : handle lib g s (Event.tick now o) with
      | none => rw [hh] at h; exact absurd h (by simp)
      | some s1 =>
        rw [hh] at h
        exact ih s1 s' h (handle_ordered lib g s s1 _ hh ho)
    | conn =>
      simp only [loop] at h
      cases hh : handle lib g s (Event.conn) with
      | none => rw [hh] at h; exact absurd h (by simp)
      | some s1 =>
        rw [hh] at h
        exact ih s1 s' h (handle_ordered lib g s s1 _ hh ho)
    | line l w =>
      simp only [loop] at h
      cases hh : handle lib g s (Event.line l w) with
      | none => rw [hh] at h; exact absurd h (by simp)
      | some s1 =>
        rw [hh] at h
        exact ih s1 s' h (handle_ordered lib g s s1 _ hh ho)

theorem shutdown_ordered (s s' : State) (w : Write) (h : shutdown s w = some s')
    (ho : s.ordered) : s'.ordered := by
  unfold shutdown at h
  cases hf : (if s.buf.length > 0 then (WriteTo s w).map Prod.fst else some s) with
  | none => rw [hf] at h; exact absurd h (by simp)
  | some s1 =>
    rw [hf] at h
    simp only [Option.some.injEq] at h
    have hfl : Flushed s w s1 := by
      by_cases hlen : s.buf.length > 0
      · rw [if_pos hlen] at hf
        cases hw : WriteTo s w with
        | none => rw [hw] at hf; exact absurd hf (by simp)
        | some r =>
          rw [hw] at hf
          simp only [Option.map_some', Option.some.injEq] at hf
          rw [← hf]
          exact WriteTo_flushed s r.1 w r.2 hw
      · rw [if_neg hlen] at hf
        rw [← Option.some.inj hf]
        exact Flushed_refl s w (eq_nil_of_not_length_pos _ hlen)
    rw [← h]
    exact ordered_close s1 _ _ (ordered_flushed s s1 w hfl ho)

theorem mainFrom_ordered {τ : Type} (lib : Lib τ) (g : Globals) (s s' : State)
    (es : List (Event τ)) (w : Write) (h : mainFrom lib g s es w = some s') (ho : s.ordered) :
    s'.ordered := by
  unfold mainFrom at h
  cases hl : loop lib g s es with
  | none => rw [hl] at h; exact absurd h (by simp)
  | some s1 =>
    rw [hl] at h
    exact shutdown_ordered s1 s' w h (loop_ordered lib g es s s1 hl ho)

/-- A list of tagged writes whose tags never decrease and stay below `n + 1`
is made of the writes tagged below `n` followed by those tagged `n`. -/
theorem sorted_split (n : Nat) (l : List (Nat × List Byte)) :
    l.Pairwise (fun a b => a.1 ≤ b.1) → (∀ p ∈ l, p.1 < n + 1) →
      l = l.filter (fun p => decide (p.1 < n)) ++ l.filter (fun p => p.1 == n) := by
  induction l with
  | nil => intro _ _; rfl
  | cons a t ih =>
    intro hpw hall
    obtain ⟨ha, ht⟩ := List.pairwise_cons.mp hpw
    have hallt : ∀ p ∈ t, p.1 < n + 1 := fun p hp => hall p (List.mem_cons_of_mem _ hp)
    by_cases hlt : a.1 < n
    · have hne : ¬ a.1 = n := by omega
      simp only [List.filter_cons, hlt, decide_True, if_true, beq_iff_eq, hne, if_false,
        List.cons_append]
      rw [← ih ht hallt]
    · have hall2 := hall a (List.mem_cons_self _ _)
      have heq : a.1 = n := by omega
      have hnone : t.filter (fun p => decide (p.1 < n)) = [] := by
        rw [List.filter_eq_nil_iff]
        intro p hp
        have := ha p hp
        simp only [decide_eq_true_eq]
        omega
      have hself : t.filter (fun p => p.1 == n) = t := by
        rw [List.filter_eq_self]
        intro p hp
        have h1 := ha p hp
        have h2 := hallt p hp
        simp only [beq_iff_eq]
        omega
      rw [List.filter_cons_of_neg (by simpa using hlt),
        List.filter_cons_of_pos (by simpa using heq), hnone, hself]
      rfl

theorem sorted_by_file (n : Nat) :
    ∀ l : List (Nat × List Byte), l.Pairwise (fun a b => a.1 ≤ b.1) → (∀ p ∈ l, p.1 < n) →
      ((List.range n).map
          (fun h => ((l.filter (fun p => p.1 == h)).map Prod.snd).flatten)).flatten
        = (l.map Prod.snd).flatten := by
  induction n with
  | zero =>
    intro l _ hall
    cases l with
    | nil => rfl
    | cons a t => exact absurd (hall a (List.mem_cons_self _ _)) (by omega)
  | succ n ih =>
    intro l hpw hall
    have hsplit := sorted_split n l hpw hall
    have hlow := ih (l.filter (fun p => decide (p.1 < n)))
      (List.Pairwise.sublist (List.filter_sublist l) hpw)
      (fun p hp => by
        have := (List.mem_filter.mp hp).2
        simpa using this)
    have hcongr : (List.range n).map
          (fun h => ((l.filter (fun p => p.1 == h)).map Prod.snd).flatten)
        = (List.range n).map
          (fun h => (((l.filter (fun p => decide (p.1 < n))).filter
            (fun p => p.1 == h)).map Prod.snd).flatten) := by
      apply List.map_congr_left
      intro h hh
      have hh' : h < n := List.mem_range.mp hh
      rw [List.filter_filter]
      congr 2
      apply List.filter_congr
      intro p _
      by_cases hp : p.1 = h
      · simp [hp, hh']
      · simp [hp]
    rw [List.range_succ, List.map_append, List.flatten_append, hcongr, hlow]
    simp only [List.map_cons, List.map_nil, List.flatten_cons, List.flatten_nil,
      List.append_nil]
    rw [← List.flatten_append, ← List.map_append, ← hsplit]

theorem bytesByFile_eq (s : State) (ho : s.ordered) : s.bytesByFile = s.sinkBytes := by
  obtain ⟨⟨z, _, hlt, hall⟩, hpw⟩ := ho
  exact sorted_by_file s.nextFd s.sink hpw
    (fun p hp => Nat.lt_of_le_of_lt (hall p hp) hlt)

/-- C1: round trip. From an open session, for every sequence of events none of
which is the signal and during which every compressor write succeeds, followed
by the signal, `main` leaves its loop and shuts down; the bytes accepted by the
compressors, in the order of the writes, are then those accepted or buffered
before, followed by the received lines in the order received; the buffer is
empty, and the compressor and the file of the session are closed. From a
session to whose compressors nothing was written yet, the bytes accepted by the
compressors, concatenated file after file in the order the files were created,
are the buffered bytes followed by the received lines: exactly the received
lines when the buffer starts empty. -/
theorem C1_round_trip {τ : Type} (lib : Lib τ) (g : Globals) (s : State)
    (es : List (Event τ)) (z f : Nat) (hz : s.lzoWriter = some z) (hf : s.file = some f)
    (hes : ∀ e ∈ es, e.writesOk) :
    ∃ s', mainFrom lib g s (es ++ [Event.sig]) Write.ok = some s' ∧
      s'.sinkBytes = s.sinkBytes ++ s.buf ++ received es ∧ s'.buf = [] ∧
      (∃ z', s'.lzoWriter = some z' ∧ z' ∈ s'.closedWriters) ∧
      (∃ f', s'.file = some f' ∧ f' ∉ s'.openFiles) ∧
      (s.sink = [] → z < s.nextFd → s'.bytesByFile = s.buf ++ received es) := by
  obtain ⟨s1, z1, f1, h1, h2, h3, h4⟩ := loop_ok lib g es s z f hz hf hes
  obtain ⟨s2, k1, k2, k3, k4, k5, k6, k7⟩ := shutdown_ok s1 z1 f1 h3 h4
  have hmain : mainFrom lib g s (es ++ [Event.sig]) Write.ok = some s2 := by
    simp [mainFrom, h1, k1]
  have hbytes : s2.sinkBytes = s.sinkBytes ++ s.buf ++ received es := by
    rw [k2, h2, State.total]
  refine ⟨s2, hmain, hbytes, k3, ⟨z1, k4, k5⟩, ⟨f1, k6, k7⟩, ?_⟩
  intro hsink hlt
  have ho : s.ordered := by
    refine ⟨⟨z, hz, hlt, ?_⟩, ?_⟩
    · intro p hp
      rw [hsink] at hp
      exact absurd hp (List.not_mem_nil p)
    · rw [hsink]
      exact List.Pairwise.nil
  rw [bytesByFile_eq s2 (mainFrom_ordered lib g s s2 _ Write.ok hmain ho), hbytes]
  simp [State.sinkBytes, hsink]

/-- C1 at a concrete input: a fresh open session, the line `a`, a rotation to
a new file, the line `b`, then the signal. -/
theorem C1_round_trip_witness :
    (State.opened.lzoWriter = some 0 ∧ State.opened.file = some 0) ∧
    ∃ s', mainFrom Lib.plain ⟨ascii "%s", 10, 3, 2, ascii "h"⟩ State.opened
        ([Event.line (ascii "a\n") Write.ok, Event.tick 5 ⟨Write.ok, true, true, true⟩,
          Event.line (ascii "b\n") Write.ok] ++ [Event.sig]) Write.ok = some s' ∧
      s'.sinkBytes = State.opened.sinkBytes ++ State.opened.buf ++
        received [Event.line (ascii "a\n") Write.ok,
          Event.tick (5 : Int) ⟨Write.ok, true, true, true⟩,
          Event.line (ascii "b\n") Write.ok] ∧ s'.buf = [] ∧
      (∃ z', s'.lzoWriter = some z' ∧ z' ∈ s'.closedWriters) ∧
      (∃ f', s'.file = some f' ∧ f' ∉ s'.openFiles) ∧
      (State.opened.sink = [] → 0 < State.opened.nextFd →
        s'.bytesByFile = State.opened.buf ++ received [Event.line (ascii "a\n") Write.ok,
          Event.tick (5 : Int) ⟨Write.ok, true, true, true⟩,
          Event.line (ascii "b\n") Write.ok]) :=
  ⟨⟨rfl, rfl⟩, C1_round_trip Lib.plain ⟨ascii "%s", 10, 3, 2, ascii "h"⟩ State.opened _ 0 0 rfl rfl
    (by
      intro e he
      simp only [List.mem_cons, List.mem_singleton, List.not_mem_nil, or_false] at he
      rcases he with rfl | rfl | rfl <;> simp [Event.writesOk])⟩

/-! ## Buffered writes -/

/-- C2, amended: `append(line)` with a buffer `b`, a line `l` and a threshold
`blockSizeMax`, when a flush of a non-empty buffer finds a compressor that
accepts no more bytes than it is handed. If `len(b)+len(l) > blockSizeMax` the
buffer is first handed to the compressor, the bytes the compressor accepts leave
it, and the buffer after the call is the rest of `b` followed by `l`: exactly
`l` when the compressor accepts all of `b`. Otherwise nothing is flushed and the
buffer after the call is `b` followed by `l`. -/
theorem C2_append (blockSizeMax : Int) (s : State) (l : List Byte) (w : Write)
    (h : s.buf ≠ [] → (s.buf.length : Int) + (l.length : Int) > blockSizeMax →
      (∃ z, s.lzoWriter = some z) ∧ (w s.buf).n ≤ s.buf.length) :
    ∃ s', append blockSizeMax s l w = some s' ∧
      ((s.buf.length : Int) + (l.length : Int) > blockSizeMax →
        s'.buf = s.buf.drop (w s.buf).n ++ l ∧
        s'.sinkBytes = s.sinkBytes ++ s.buf.take (w s.buf).n ∧
        ((w s.buf).n = s.buf.length → s'.buf = l ∧ s'.sinkBytes = s.sinkBytes ++ s.buf)) ∧
      (¬ (s.buf.length : Int) + (l.length : Int) > blockSizeMax →
        s'.buf = s.buf ++ l ∧ s'.sink = s.sink) := by
  unfold append
  by_cases hover : (s.buf.length : Int) + (l.length : Int) > blockSizeMax
  · obtain ⟨s1, h1, h2⟩ := flushLog_spec s w (fun hb => h hb hover)
    rw [if_pos hover, h1]
    refine ⟨_, rfl, ?_, fun hno => absurd hover hno⟩
    intro _
    have hbuf : ({ s1 with buf := s1.buf ++ l } : State).buf = s.buf.drop (w s.buf).n ++ l := by
      show s1.buf ++ l = _
      rw [h2.1]
    have hsink : ({ s1 with buf := s1.buf ++ l } : State).sinkBytes
        = s.sinkBytes ++ s.buf.take (w s.buf).n := h2.2.1
    refine ⟨hbuf, hsink, ?_⟩
    intro hall
    rw [hbuf, hsink, hall]
    simp
  · rw [if_neg hover]
    exact ⟨_, rfl, fun hyes => absurd hyes hover, fun _ => ⟨rfl, rfl⟩⟩

/-- C2 at the scenario of the specification: `blockSizeMax = 10`, the buffer
holds the 6 bytes of the first line, and the 5 bytes of the second line
arrive while the compressor works: the 6 bytes are flushed and the buffer holds
the 5 bytes of the second line. -/
theorem C2_append_witness :
    ((({ State.opened with buf := ascii "12345\n" } : State).buf ≠ [] →
      ((({ State.opened with buf := ascii "12345\n" } : State).buf.length : Int)
        + ((ascii "6789\n").length : Int) > 10) →
      (∃ z, ({ State.opened with buf := ascii "12345\n" } : State).lzoWriter = some z) ∧
        (Write.ok ({ State.opened with buf := ascii "12345\n" } : State).buf).n
          ≤ ({ State.opened with buf := ascii "12345\n" } : State).buf.length)) ∧
    (∃ s', append 10 { State.opened with buf := ascii "12345\n" } (ascii "6789\n") Write.ok
        = some s' ∧ s'.buf = ascii "6789\n" ∧ s'.buf.length = 5 ∧
        s'.sinkBytes = ascii "12345\n") ∧
    (append 10 State.opened (ascii "12345\n") Write.ok).map (fun s => s.buf.length) = some 6 := by
  have hyp : (({ State.opened with buf := ascii "12345\n" } : State).buf ≠ [] →
      ((({ State.opened with buf := ascii "12345\n" } : State).buf.length : Int)
        + ((ascii "6789\n").length : Int) > 10) →
      (∃ z, ({ State.opened with buf := ascii "12345\n" } : State).lzoWriter = some z) ∧
        (Write.ok ({ State.opened with buf := ascii "12345\n" } : State).buf).n
          ≤ ({ State.opened with buf := ascii "12345\n" } : State).buf.length) :=
    fun _ _ => ⟨⟨0, rfl⟩, by decide⟩
  refine ⟨hyp, ?_, by decide⟩
  obtain ⟨s', h1, h2, _⟩ :=
    C2_append 10 { State.opened with buf := ascii "12345\n" } (ascii "6789\n") Write.ok hyp
  obtain ⟨_, _, h3⟩ := h2 (by decide)
  obtain ⟨h4, h5⟩ := h3 (by decide)
  exact ⟨s', h1, h4, by rw [h4]; decide, by rw [h5]; decide⟩

/-- C2 as stated fails: with `blockSizeMax = 10`, the buffer `12345\n` and the
line `6789\n`, a compressor whose write returns an error without accepting a
byte leaves the buffer holding the 11 bytes of both lines, not the second line
alone. And when the first `reopen` of `main` could not create its file, so
that no compressor exists, the second of these two lines makes the program
panic in the flush. -/
theorem C2_counterexample :
    (append 10 { State.opened with buf := ascii "12345\n" } (ascii "6789\n")
        (Write.failAfter 0)).map (fun s => s.buf) = some (ascii "12345\n6789\n") ∧
    ascii "12345\n6789\n" ≠ ascii "6789\n" ∧
    ((ascii "12345\n").length : Int) + ((ascii "6789\n").length : Int) > 10 ∧
    (reopen Lib.plain ⟨ascii "b", 10, 3, 2, ascii "h"⟩ State.initial 1
        ⟨Write.ok, false, true, true⟩).map (fun s => s.toSession)
      = some ⟨[], none, none, []⟩ ∧
    main Lib.plain ⟨ascii "b", 10, 3, 2, ascii "h"⟩ 1 ⟨Write.ok, false, true, true⟩
      [Event.line (ascii "12345\n") Write.ok, Event.line (ascii "6789\n") Write.ok, Event.sig]
      Write.ok = none := by
  decide

/-! ## A failed flush -/

/-- C7, amended: when the compressor write of a buffer flush returns an error
after accepting `n` of the buffered bytes, those `n` bytes leave the buffer and
the others stay in it, kept for the next flush and not discarded: the buffer is
empty after the failed flush only if the compressor accepted all of it. After
an `append` whose flush failed the buffer holds the bytes not accepted followed
by the new line, and after a `rotate` whose flush failed it holds the bytes not
accepted. -/
theorem C7_flush_failed (s : State) (w : Write) (z : Nat) (hz : s.lzoWriter = some z)
    (hb : s.buf ≠ []) (herr : (w s.buf).err = true) (hn : (w s.buf).n ≤ s.buf.length) :
    (∃ s1, WriteTo s w = some (s1, true) ∧ s1.buf = s.buf.drop (w s.buf).n ∧
      ((w s.buf).n < s.buf.length → s1.buf ≠ [])) ∧
    (∀ (blockSizeMax : Int) (l : List Byte),
      (s.buf.length : Int) + (l.length : Int) > blockSizeMax →
      (append blockSizeMax s l w).map (fun s' => s'.buf) = some (s.buf.drop (w s.buf).n ++ l)) ∧
    (∀ (τ : Type) (lib : Lib τ) (g : Globals) (now : τ) (o : Syscalls), o.write = w →
      (strftime lib g now).getD [] ≠ s.path →
      (reopen lib g s now o).map (fun s' => s'.buf) = some (s.buf.drop (w s.buf).n)) := by
  have hno : s.buf ≠ [] → (∃ z, s.lzoWriter = some z) ∧ (w s.buf).n ≤ s.buf.length :=
    fun _ => ⟨⟨z, hz⟩, hn⟩
  refine ⟨?_, ?_, ?_⟩
  · obtain ⟨s1, err, h1, h2, h3⟩ := WriteTo_spec s w hno
    have he : err = true := by rw [h3 hb, herr]; rfl
    subst he
    refine ⟨s1, h1, h2.1, ?_⟩
    intro hlt
    rw [h2.1]
    simp only [ne_eq, List.drop_eq_nil_iff, not_le]
    exact hlt
  · intro blockSizeMax l hover
    obtain ⟨s1, h1, h2⟩ := flushLog_spec s w hno
    unfold append
    rw [if_pos hover, h1]
    show some (s1.buf ++ l) = _
    rw [h2.1]
  · intro τ lib g now o ho hp
    subst ho
    obtain ⟨s1, h1, h2⟩ := preFlush_spec s o.write hno
    rcases reopen_cases lib g s s1 now o hp h1 with h | h | h
    · rw [h]; exact congrArg some h2.1
    · rw [h]; exact congrArg some h2.1
    · rw [h]
      show some _ = _
      rw [← h2.1]
      simp

/-- C7 at a concrete input: the buffer `abc` and a compressor that accepts one
byte and then fails. -/
theorem C7_flush_failed_witness :
    (({ State.opened with buf := ascii "abc" } : State).lzoWriter = some 0 ∧
      ({ State.opened with buf := ascii "abc" } : State).buf ≠ [] ∧
      (Write.failAfter 1 ({ State.opened with buf := ascii "abc" } : State).buf).err = true ∧
      (Write.failAfter 1 ({ State.opened with buf := ascii "abc" } : State).buf).n
        ≤ ({ State.opened with buf := ascii "abc" } : State).buf.length) ∧
    (∃ s1, WriteTo { State.opened with buf := ascii "abc" } (Write.failAfter 1) = some (s1, true) ∧
      s1.buf = (ascii "abc").drop 1) :=
  ⟨⟨rfl, by decide, rfl, by decide⟩,
    let ⟨s1, h1, h2, _⟩ := (C7_flush_failed { State.opened with buf := ascii "abc" }
      (Write.failAfter 1) 0 rfl (by decide) rfl (by decide)).1
    ⟨s1, h1, h2⟩⟩

/-- C7 as stated fails: a flush of the buffer `abc` into a compressor that
accepts one byte and then returns an error leaves `bc` in the buffer, in
`rotate` as in `append`, where the buffer then holds `bc` followed by the new
line and not the new line alone. -/
theorem C7_counterexample :
    (WriteTo { State.opened with buf := ascii "abc" } (Write.failAfter 1)).map
        (fun r => (r.1.buf, r.2)) = some (ascii "bc", true) ∧
    (reopen Lib.plain ⟨ascii "b", 10, 3, 2, ascii "h"⟩ { State.opened with buf := ascii "abc" }
        1 ⟨Write.failAfter 1, true, true, true⟩).map (fun s => s.buf) = some (ascii "bc") ∧
    (append 3 { State.opened with buf := ascii "abc" } (ascii "d\n")
        (Write.failAfter 1)).map (fun s => s.buf) = some (ascii "bcd\n") ∧
    ascii "bcd\n" ≠ ascii "d\n" ∧ ascii "bc" ≠ [] := by
  decide

/-! ## The soft bound on the buffer -/

theorem appendAll_ok_bound (blockSizeMax : Int) (z : Nat) (ls : List (List Byte)) :
    ∀ s : State, s.lzoWriter = some z → (s.buf.length : Int) ≤ blockSizeMax →
      (∀ l ∈ ls, (l.length : Int) ≤ blockSizeMax) →
      ∃ s', appendAll blockSizeMax s (ls.map (fun l => (l, Write.ok))) = some s' ∧
        s'.lzoWriter = some z ∧ (s'.buf.length : Int) ≤ blockSizeMax := by
  induction ls with
  | nil =>
    intro s hz hb _
    exact ⟨s, rfl, hz, hb⟩
  | cons l ls ih =>
    intro s hz hb hl
    have hl0 : (l.length : Int) ≤ blockSizeMax := hl l (List.mem_cons_self _ _)
    have hrest : ∀ l' ∈ ls, (l'.length : Int) ≤ blockSizeMax :=
      fun l' h' => hl l' (List.mem_cons_of_mem _ h')
    have step : ∃ s1, append blockSizeMax s l Write.ok = some s1 ∧ s1.lzoWriter = some z ∧
        (s1.buf.length : Int) ≤ blockSizeMax := by
      unfold append
      by_cases hover : (s.buf.length : Int) + (l.length : Int) > blockSizeMax
      · obtain ⟨s1, h1, h2⟩ := flushLog_spec s Write.ok (ok_no_panic s z hz)
        rw [if_pos hover, h1]
        refine ⟨_, rfl, h2.2.2.2.1.trans hz, ?_⟩
        show ((s1.buf ++ l).length : Int) ≤ blockSizeMax
        rw [Flushed_ok_buf s s1 h2]
        simpa using hl0
      · rw [if_neg hover]
        refine ⟨_, rfl, hz, ?_⟩
        show ((s.buf ++ l).length : Int) ≤ blockSizeMax
        simp only [List.length_append, Nat.cast_add]
        omega
    obtain ⟨s1, h1, h2, h3⟩ := step
    obtain ⟨s2, k1, k2, k3⟩ := ih s1 h2 h3 hrest
    exact ⟨s2, by simp [appendAll, h1, k1], k2, k3⟩

/-- C8, amended: with a compressor present whose every write succeeds, for
every `blockSizeMax` and every sequence of `append` calls, starting from an
empty buffer, whose lines each have length at most `blockSizeMax`, the buffer
occupancy after each call is at most `blockSizeMax`, hence never exceeds
`blockSizeMax` plus the length of the longest line appended. -/
theorem C8_soft_bound (blockSizeMax : Int) (s : State) (z : Nat) (lines : List (List Byte))
    (hz : s.lzoWriter = some z) (hb : s.buf = [])
    (hl : ∀ l ∈ lines, (l.length : Int) ≤ blockSizeMax)
    (k : Nat) (hk : 0 < k) (hkl : k ≤ lines.length) :
    ∃ s', appendAll blockSizeMax s ((lines.take k).map (fun l => (l, Write.ok))) = some s' ∧
      (s'.buf.length : Int) ≤ blockSizeMax ∧
      (s'.buf.length : Int) ≤ blockSizeMax + (longest lines : Int) := by
  have hpos : (0 : Int) ≤ blockSizeMax := by
    cases hlines : lines with
    | nil => rw [hlines] at hkl; simp at hkl; omega
    | cons l rest =>
      have := hl l (by rw [hlines]; exact List.mem_cons_self _ _)
      omega
  obtain ⟨s', h1, _, h3⟩ := appendAll_ok_bound blockSizeMax z (lines.take k) s hz
    (by rw [hb]; simpa using hpos) (fun l h' => hl l (List.mem_of_mem_take h'))
  exact ⟨s', h1, h3, by omega⟩

/-- C8 at a concrete input: `blockSizeMax = 10` and the two lines of the
scenario of the specification. -/
theorem C8_soft_bound_witness :
    (State.opened.lzoWriter = some 0 ∧ State.opened.buf = [] ∧
      (∀ l ∈ [ascii "12345\n", ascii "6789\n"], (l.length : Int) ≤ 10) ∧ 0 < 2 ∧
      2 ≤ [ascii "12345\n", ascii "6789\n"].length) ∧
    ∃ s', appendAll 10 State.opened
        (([ascii "12345\n", ascii "6789\n"].take 2).map (fun l => (l, Write.ok))) = some s' ∧
      (s'.buf.length : Int) ≤ 10 ∧
      (s'.buf.length : Int) ≤ 10 + (longest [ascii "12345\n", ascii "6789\n"] : Int) :=
  ⟨⟨rfl, rfl, by decide, by decide, by decide⟩,
    C8_soft_bound 10 State.opened 0 [ascii "12345\n", ascii "6789\n"] rfl rfl (by decide) 2
      (by decide) (by decide)⟩

/-- C8 as stated fails: with `blockSizeMax = 1` and the one-byte lines `a`,
`b`, `c`, a compressor whose writes return an error without accepting a byte
lets the buffer grow to 3 bytes, above `blockSizeMax` plus the longest line.
And without a compressor, after a first `reopen` that created no file, the
second line makes the program panic in the flush. -/
theorem C8_counterexample :
    (appendAll 1 State.opened
        [(ascii "a", Write.failAfter 0), (ascii "b", Write.failAfter 0),
          (ascii "c", Write.failAfter 0)]).map (fun s => s.buf) = some (ascii "abc") ∧
    State.opened.buf = [] ∧
    (∀ l ∈ [ascii "a", ascii "b", ascii "c"], (l.length : Int) ≤ 1) ∧
    ¬ (((ascii "abc").length : Int) ≤ 1 + (longest [ascii "a", ascii "b", ascii "c"] : Int)) ∧
    State.initial.buf = [] ∧
    appendAll 1 State.initial [(ascii "a", Write.ok), (ascii "b", Write.ok)] = none := by
  decide

/-! ## Rotation -/

/-- C3, amended: for all times `t1`, `t2` whose templated path is the same. A
`rotate` whose candidate path equals `activePath` is a no-op: it returns the
state it was given, so `activePath`, file handle, compressor and buffer are
unchanged and no file is created. When the candidate path differs from
`activePath` and the rotation at `t1` is not abandoned (its flush does not
panic, and file creation, lock acquisition and compressor construction
succeed), calling `rotate` at `t1` and then at `t2` performs exactly one file
open, that of the candidate path at `t1`, and the call at `t2` is a no-op. -/
theorem C3_idempotent_rotation {τ : Type} (lib : Lib τ) (g : Globals) (s : State)
    (t1 t2 : τ) (o1 o2 : Syscalls) (hsame : strftime lib g t1 = strftime lib g t2) :
    ((strftime lib g t1).getD [] = s.path → reopen lib g s t1 o1 = some s) ∧
    ((strftime lib g t1).getD [] ≠ s.path →
      (s.buf ≠ [] → (∃ z, s.lzoWriter = some z) ∧ (o1.write s.buf).n ≤ s.buf.length) →
      o1.create = true → (g.lockMode > 0 → o1.flock = true) → o1.newWriter = true →
      ∃ s1, reopen lib g s t1 o1 = some s1 ∧ reopen lib g s1 t2 o2 = some s1 ∧
        s1.path = (strftime lib g t1).getD [] ∧
        s1.created = s.created ++ [(strftime lib g t1).getD []]) := by
  refine ⟨fun hp => reopen_noop lib g s t1 o1 hp, ?_⟩
  intro hp hno hc hl hn
  obtain ⟨s0, h1, h2⟩ := preFlush_spec s o1.write hno
  have h := reopen_swaps lib g s s0 t1 o1 hp h1 hc hl hn
  refine ⟨_, h, ?_, ?_, ?_⟩
  · apply reopen_noop
    rw [← hsame]
    rfl
  · rfl
  · simp only [install_created, create_created]
    rw [h2.2.2.2.2.2.2.2.1]

/-- C3 at a concrete input: the session open on `a`, the constant template
`b`, the times 1 and 2, every outside call succeeding. -/
theorem C3_idempotent_rotation_witness :
    strftime Lib.plain ⟨ascii "b", 10, 3, 2, ascii "h"⟩ 1
      = strftime Lib.plain ⟨ascii "b", 10, 3, 2, ascii "h"⟩ 2 ∧
    ∃ s1, reopen Lib.plain ⟨ascii "b", 10, 3, 2, ascii "h"⟩ State.opened 1
        ⟨Write.ok, true, true, true⟩ = some s1 ∧
      reopen Lib.plain ⟨ascii "b", 10, 3, 2, ascii "h"⟩ s1 2 ⟨Write.ok, true, true, true⟩
        = some s1 ∧
      s1.path = (strftime Lib.plain ⟨ascii "b", 10, 3, 2, ascii "h"⟩ 1).getD [] ∧
      s1.created = State.opened.created
        ++ [(strftime Lib.plain ⟨ascii "b", 10, 3, 2, ascii "h"⟩ 1).getD []] :=
  ⟨by decide,
    (C3_idempotent_rotation Lib.plain ⟨ascii "b", 10, 3, 2, ascii "h"⟩ State.opened 1 2
      ⟨Write.ok, true, true, true⟩ ⟨Write.ok, true, true, true⟩ (by decide)).2
      (by decide) (fun h => absurd rfl h) rfl (fun _ => rfl) rfl⟩

/-- C3 as stated fails. With the constant template `b`, the times 1 and 2 have
the same templated path; from the session open on `a`, when the lock on the
candidate file is refused at time 1 and granted at time 2, the two calls of
`rotate` create the file `b` twice. With the constant template `a`, the path
already active, the two calls create no file. -/
theorem C3_counterexample :
    strftime Lib.plain ⟨ascii "b", 10, 3, 6, ascii "h"⟩ 1
      = strftime Lib.plain ⟨ascii "b", 10, 3, 6, ascii "h"⟩ 2 ∧
    ((reopen Lib.plain ⟨ascii "b", 10, 3, 6, ascii "h"⟩ State.opened 1
        ⟨Write.ok, true, false, true⟩).bind
      (fun s1 => reopen Lib.plain ⟨ascii "b", 10, 3, 6, ascii "h"⟩ s1 2
        ⟨Write.ok, true, true, true⟩)).map (fun s2 => s2.created)
      = some (State.opened.created ++ [ascii "b", ascii "b"]) ∧
    ((reopen Lib.plain ⟨ascii "a", 10, 3, 2, ascii "h"⟩ State.opened 1
        ⟨Write.ok, true, true, true⟩).bind
      (fun s1 => reopen Lib.plain ⟨ascii "a", 10, 3, 2, ascii "h"⟩ s1 2
        ⟨Write.ok, true, true, true⟩)).map (fun s2 => s2.created)
      = some State.opened.created := by
  decide

/-- C4, amended: for every session state in which the flush does not panic,
when `rotate` to a new candidate path is abandoned because file creation, lock
acquisition or compressor construction fails, `activePath`, file handle and
compressor after the call are those before the call, and the buffer has been
flushed into the retained compressor: the bytes that compressor accepted have
left the buffer. The whole session is identical to the one before the call when
the buffer was empty. -/
theorem C4_no_partial_swap {τ : Type} (lib : Lib τ) (g : Globals) (s : State) (now : τ)
    (o : Syscalls) (hp : (strftime lib g now).getD [] ≠ s.path)
    (hno : s.buf ≠ [] → (∃ z, s.lzoWriter = some z) ∧ (o.write s.buf).n ≤ s.buf.length)
    (hab : o.create = false ∨ (g.lockMode > 0 ∧ o.flock = false) ∨ o.newWriter = false) :
    ∃ s', reopen lib g s now o = some s' ∧ s'.path = s.path ∧ s'.file = s.file ∧
      s'.lzoWriter = s.lzoWriter ∧ s'.buf = s.buf.drop (o.write s.buf).n ∧
      s'.sinkBytes = s.sinkBytes ++ s.buf.take (o.write s.buf).n ∧
      (s.buf = [] → s'.toSession = s.toSession) := by
  obtain ⟨s1, h1, h2⟩ := preFlush_spec s o.write hno
  obtain ⟨hbuf, hsink, hfile, hlzo, hpath, _⟩ := h2
  have hsess : s.buf = [] → s1.toSession = s.toSession := by
    intro hnil
    apply Session.ext
    · show s1.buf = s.buf
      rw [hbuf, hnil]; simp
    · exact hfile
    · exact hlzo
    · exact hpath
  have habandon : reopen lib g s now o = some s1.log ∨
      reopen lib g s now o = some (s1.create ((strftime lib g now).getD [])).log := by
    by_cases hc : o.create = true
    · right
      by_cases hn : o.newWriter = true
      · rcases hab with h | ⟨h, h'⟩ | h
        · rw [hc] at h; exact absurd h (by decide)
        · exact reopen_flock_fails lib g s s1 now o hp h1 hc h h'
        · rw [hn] at h; exact absurd h (by decide)
      · exact reopen_newWriter_fails lib g s s1 now o hp h1 hc (by simpa using hn)
    · left
      exact reopen_create_fails lib g s s1 now o hp h1 (by simpa using hc)
  rcases habandon with h | h
  · exact ⟨_, h, hpath, hfile, hlzo, hbuf, hsink, hsess⟩
  · exact ⟨_, h, hpath, hfile, hlzo, hbuf, hsink, hsess⟩

/-- C4 at a concrete input: the session open on `a` with an empty buffer, a
rotation to `b` whose file creation fails. -/
theorem C4_no_partial_swap_witness :
    ((strftime Lib.plain ⟨ascii "b", 10, 3, 2, ascii "h"⟩ 1).getD [] ≠ State.opened.path ∧
      (false = false ∨ ((2 : Int) > 0 ∧ true = false) ∨ true = false)) ∧
    ∃ s', reopen Lib.plain ⟨ascii "b", 10, 3, 2, ascii "h"⟩ State.opened 1
        ⟨Write.ok, false, true, true⟩ = some s' ∧ s'.path = State.opened.path ∧
      s'.file = State.opened.file ∧ s'.lzoWriter = State.opened.lzoWriter ∧
      s'.buf = State.opened.buf.drop (Write.ok State.opened.buf).n ∧
      s'.sinkBytes = State.opened.sinkBytes
        ++ State.opened.buf.take (Write.ok State.opened.buf).n ∧
      (State.opened.buf = [] → s'.toSession = State.opened.toSession) :=
  ⟨⟨by decide, Or.inl rfl⟩,
    C4_no_partial_swap Lib.plain ⟨ascii "b", 10, 3, 2, ascii "h"⟩ State.opened 1
      ⟨Write.ok, false, true, true⟩ (by decide) (fun h => absurd rfl h) (Or.inl rfl)⟩

/-- C4 as stated fails: from the session open on `a` with `abc` in the buffer,
a rotation to `b` abandoned because the file creation fails has already flushed
the buffer into the compressor of `a`: the buffer is empty after the call, and
the session differs from the one before it. And when the first `reopen` of
`main` created no file, a rotation that finds a line in the buffer is not
abandoned: the program panics in the flush. -/
theorem C4_counterexample :
    (reopen Lib.plain ⟨ascii "b", 10, 3, 2, ascii "h"⟩ { State.opened with buf := ascii "abc" } 1
        ⟨Write.ok, false, true, true⟩).map (fun s => (s.toSession, s.sink))
      = some (⟨[], some 0, some 0, ascii "a"⟩, [(0, ascii "abc")]) ∧
    ({ State.opened with buf := ascii "abc" } : State).toSession
      = ⟨ascii "abc", some 0, some 0, ascii "a"⟩ ∧
    (⟨[], some 0, some 0, ascii "a"⟩ : Session) ≠ ⟨ascii "abc", some 0, some 0, ascii "a"⟩ ∧
    main Lib.plain ⟨ascii "b", 10, 3, 2, ascii "h"⟩ 1 ⟨Write.ok, false, true, true⟩
      [Event.line (ascii "abc") Write.ok, Event.tick 2 ⟨Write.ok, false, true, true⟩, Event.sig]
      Write.ok = none := by
  decide

/-- C9, the code at the failing input: from the session open on `a` with the
only open handle 0, under `lockMode = LOCK_EX|LOCK_NB`, a rotation to `b`
creates the candidate file, handle 1, and is refused the lock: `reopen` returns
with the session unchanged and with handle 1 still open; a second attempt
leaves handle 2 open as well. -/
theorem C9_candidate_left_open :
    (reopen Lib.plain ⟨ascii "b", 10, 3, 6, ascii "h"⟩ State.opened 1
        ⟨Write.ok, true, false, true⟩).map (fun s => (s.openFiles, s.toSession, s.created))
      = some ([1, 0], State.opened.toSession, [ascii "a", ascii "b"]) ∧
    State.opened.openFiles = [0] ∧
    ((reopen Lib.plain ⟨ascii "b", 10, 3, 6, ascii "h"⟩ State.opened 1
        ⟨Write.ok, true, false, true⟩).bind
      (fun s1 => reopen Lib.plain ⟨ascii "b", 10, 3, 6, ascii "h"⟩ s1 2
        ⟨Write.ok, true, false, true⟩)).map (fun s => s.openFiles) = some [2, 1, 0] := by
  decide

/-! ## Start-up: the compression level -/

/-- C10, amended: for every integer value of the level option and whatever the
three level constants of the compressor are, a value at or above
`BestCompression` becomes `BestCompression`, any other value at or below
`BestSpeed` becomes `BestSpeed`, and a value strictly between the two becomes
`DefaultCompression`; the resulting level is always one of these three named
levels, and it is the level `init` leaves in the globals. -/
theorem C10_level_normalisation (c : LzoLevels) (level : Int) :
    (level ≥ c.BestCompression → normalizeLevel c level = c.BestCompression) ∧
    (level < c.BestCompression → level ≤ c.BestSpeed →
      normalizeLevel c level = c.BestSpeed) ∧
    (c.BestSpeed < level → level < c.BestCompression →
      normalizeLevel c level = c.DefaultCompression) ∧
    (normalizeLevel c level = c.BestCompression ∨ normalizeLevel c level = c.BestSpeed ∨
      normalizeLevel c level = c.DefaultCompression) ∧
    (∀ (τ : Type) (lib : Lib τ) (g g' : Globals) (now : τ),
      g.level = level → init lib c g now = some g' → g'.level = normalizeLevel c level) := by
  refine ⟨?_, ?_, ?_, ?_, ?_⟩
  · intro h
    simp [normalizeLevel, h]
  · intro h1 h2
    simp [normalizeLevel, not_le.mpr h1, h2]
  · intro h1 h2
    simp [normalizeLevel, not_le.mpr h1, not_le.mpr h2]
  · unfold normalizeLevel
    split_ifs
    · exact Or.inl rfl
    · exact Or.inr (Or.inl rfl)
    · exact Or.inr (Or.inr rfl)
  · intro τ lib g g' now hg hinit
    unfold init at hinit
    cases hs : strftime lib g now with
    | none => rw [hs] at hinit; exact absurd hinit (by simp)
    | some p =>
      rw [hs] at hinit
      simp only [Option.some.injEq] at hinit
      rw [← hinit, ← hg]

/-- C10 at a concrete input: with the levels 3, 9 and -1 of the `lzo` package,
the level 5 becomes -1. -/
theorem C10_level_normalisation_witness :
    ((3 : Int) < 5 ∧ (5 : Int) < 9) ∧ normalizeLevel ⟨3, 9, -1⟩ 5 = -1 :=
  ⟨by decide, (C10_level_normalisation ⟨3, 9, -1⟩ 5).2.2.1 (by decide) (by decide)⟩

/-- C10 as stated fails: with the level constants of the `lzo` package,
`BestSpeed = 3`, `BestCompression = 9` and `DefaultCompression = -1`, the level
5, inside the range, is not kept but replaced by -1, and the level 100, outside
the range, is not replaced by the default -1 but by 9. -/
theorem C10_counterexample :
    normalizeLevel ⟨3, 9, -1⟩ 5 = -1 ∧ ((3 : Int) ≤ 5 ∧ (5 : Int) ≤ 9) ∧ (5 : Int) ≠ -1 ∧
    normalizeLevel ⟨3, 9, -1⟩ 100 = 9 ∧ ¬ ((3 : Int) ≤ 100 ∧ (100 : Int) ≤ 9) ∧
    (9 : Int) ≠ -1 := by
  decide

/-! ## The path templater -/

theorem ascii_token : ascii "%s" = [37, 115] := by decide

theorem replaceFrom_token (new rest : List Byte) :
    replaceFrom [37, 115] new 0 (37 :: 115 :: rest)
      = new ++ replaceFrom [37, 115] new 0 rest := by
  simp [replaceFrom, List.isPrefixOf]

theorem token_not_infix_tail (c : Byte) (cs : List Byte)
    (h : ¬ List.IsInfix [37, 115] (c :: cs)) : ¬ List.IsInfix ([37, 115] : List Byte) cs :=
  fun h' => h (List.infix_cons h')

/-- A segment free of the token is copied by the replacement, when the token
does not straddle its end. -/
theorem replaceFrom_segment (new : List Byte) (seg : List Byte) :
    ∀ rest : List Byte, ¬ List.IsInfix [37, 115] seg → rest.head? ≠ some 115 →
      replaceFrom [37, 115] new 0 (seg ++ rest) = seg ++ replaceFrom [37, 115] new 0 rest := by
  induction seg with
  | nil => intro rest _ _; rfl
  | cons c cs ih =>
    intro rest hseg hrest
    have hpre : List.isPrefixOf ([37, 115] : List Byte) (c :: (cs ++ rest)) = false := by
      cases hcs : cs with
      | nil =>
        cases hr : rest with
        | nil => simp [List.isPrefixOf]
        | cons r rs =>
          have : r ≠ 115 := by
            intro h'
            apply hrest
            rw [hr, h']
            rfl
          simp only [List.nil_append, List.isPrefixOf, Bool.and_true, Bool.and_eq_false_imp,
            beq_iff_eq, beq_eq_false_iff_ne]
          exact fun _ h' => this h'.symm
      | cons d ds =>
        have hne : ¬ (c = 37 ∧ d = 115) := by
          rintro ⟨h1, h2⟩
          apply hseg
          rw [hcs, h1, h2]
          exact ⟨[], ds, rfl⟩
        simp only [List.cons_append, List.isPrefixOf, Bool.and_true]
        by_cases h1 : c = 37
        · have h2 : d ≠ 115 := fun h2 => hne ⟨h1, h2⟩
          simp only [Bool.and_eq_false_imp, beq_iff_eq, beq_eq_false_iff_ne]
          exact fun _ h' => h2 h'.symm
        · simp only [Bool.and_eq_false_imp, beq_iff_eq, beq_eq_false_iff_ne]
          exact fun h' => absurd h'.symm h1
    show replaceFrom [37, 115] new 0 (c :: (cs ++ rest)) = _
    rw [replaceFrom, hpre]
    simp only [Bool.false_eq_true, if_false, List.cons_append]
    rw [ih rest (token_not_infix_tail c cs hseg) hrest]

theorem Replace_joinWith (new : List Byte) (segs : List (List Byte)) :
    (∀ seg ∈ segs, ¬ List.IsInfix [37, 115] seg) →
      Replace (joinWith [37, 115] segs) [37, 115] new = joinWith new segs := by
  unfold Replace
  induction segs with
  | nil => intro _; rfl
  | cons x rest ih =>
    intro h
    have hx := h x (List.mem_cons_self _ _)
    cases rest with
    | nil =>
      have := replaceFrom_segment new x [] hx (by simp)
      simpa [joinWith, replaceFrom] using this
    | cons y ys =>
      have hrest := ih (fun seg hs => h seg (List.mem_cons_of_mem _ hs))
      show replaceFrom [37, 115] new 0 (x ++ [37, 115] ++ joinWith [37, 115] (y :: ys)) = _
      rw [List.append_assoc]
      rw [replaceFrom_segment new x _ hx (by simp)]
      show x ++ replaceFrom [37, 115] new 0 (37 :: 115 :: joinWith [37, 115] (y :: ys)) = _
      rw [replaceFrom_token, hrest]
      simp [joinWith]

theorem digit_injective : ∀ d, d < 10 → ∀ e, e < 10 → digit d = digit e → d = e := by
  decide

theorem digit_ne_minus : ∀ d, d < 10 → digit d ≠ 45 := by decide

theorem natDigits_head (f : Nat) : ∀ n, n < f → ∃ d, d < 10 ∧ ∃ t, natDigits f n = digit d :: t := by
  induction f with
  | zero => intro n h; omega
  | succ f ih =>
    intro n hn
    unfold natDigits
    by_cases h : n < 10
    · exact ⟨n, h, [], by simp [h]⟩
    · obtain ⟨d, hd, t, ht⟩ := ih (n / 10) (by omega)
      exact ⟨d, hd, t ++ [digit (n % 10)], by simp [h, ht]⟩

/-- The bound on the number of digits is never reached: any two bounds above
the number give the same digits. -/
theorem natDigits_fuel (f : Nat) :
    ∀ (g n : Nat), n < f → n < g → natDigits f n = natDigits g n := by
  induction f with
  | zero => intro g n h; omega
  | succ f ih =>
    intro g n hf hg
    cases g with
    | zero => omega
    | succ g =>
      unfold natDigits
      by_cases h : n < 10
      · simp [h]
      · simp only [h, if_false]
        rw [ih g (n / 10) (by omega) (by omega)]

theorem natDigits_injective (f : Nat) :
    ∀ (g n m : Nat), n < f → m < g → natDigits f n = natDigits g m → n = m := by
  induction f with
  | zero => intro g n m h; omega
  | succ f ih =>
    intro g n m hn hm heq
    cases g with
    | zero => omega
    | succ g =>
      unfold natDigits at heq
      by_cases h1 : n < 10
      · by_cases h2 : m < 10
        · simp only [h1, h2, if_true, List.cons.injEq, and_true] at heq
          exact digit_injective n h1 m h2 heq
        · simp only [h1, h2, if_true, if_false] at heq
          have hlen := congrArg List.length heq
          obtain ⟨d, _, t, ht⟩ := natDigits_head g (m / 10) (by omega)
          rw [ht] at hlen
          simp at hlen
      · by_cases h2 : m < 10
        · simp only [h1, h2, if_true, if_false] at heq
          have hlen := congrArg List.length heq
          obtain ⟨d, _, t, ht⟩ := natDigits_head f (n / 10) (by omega)
          rw [ht] at hlen
          simp at hlen
        · simp only [h1, h2, if_false] at heq
          obtain ⟨h3, h4⟩ := List.append_inj' heq rfl
          have h5 := ih g (n / 10) (m / 10) (by omega) (by omega) h3
          have h6 : n % 10 = m % 10 :=
            digit_injective _ (Nat.mod_lt _ (by omega)) _ (Nat.mod_lt _ (by omega))
              (by simpa using h4)
          omega

theorem Sprint_injective (t1 t2 : Int) (h : Sprint t1 = Sprint t2) : t1 = t2 := by
  cases t1 with
  | ofNat n =>
    cases t2 with
    | ofNat m =>
      have := natDigits_injective (n + 1) (m + 1) n m (by omega) (by omega) h
      rw [this]
    | negSucc m =>
      exfalso
      obtain ⟨d, hd, t, ht⟩ := natDigits_head (n + 1) n (by omega)
      simp only [Sprint] at h
      rw [ht] at h
      simp only [List.cons.injEq] at h
      exact digit_ne_minus d hd h.1
  | negSucc n =>
    cases t2 with
    | ofNat m =>
      exfalso
      obtain ⟨d, hd, t, ht⟩ := natDigits_head (m + 1) m (by omega)
      simp only [Sprint] at h
      rw [ht] at h
      simp only [List.cons.injEq] at h
      exact digit_ne_minus d hd h.1.symm
    | negSucc m =>
      simp only [Sprint, List.cons.injEq, true_and] at h
      have := natDigits_injective (n + 2) (m + 2) (n + 1) (m + 1) (by omega) (by omega) h
      have hnm : n = m := by omega
      rw [hnm]

/-- C5, amended: for every template, written as the segments between the
occurrences of the start-epoch token `%s`, every occurrence of the token is
replaced by the decimal Unix timestamp of the time of the call, the value of
`time.Now()` inside `strftime`: the text handed to the date formatter is the
segments joined by that number, after the substitution of the host name. The
decimal notations of two different Unix times differ, so two calls made at
times that differ by a second or more substitute different numbers. -/
theorem C5_epoch_token (g : Globals) (segs : List (List Byte))
    (hsegs : ∀ seg ∈ segs, ¬ List.IsInfix (ascii "%s") seg)
    (hg : g.logFile = joinWith (ascii "%s") segs) :
    (∀ unixNow : Int, substitute g unixNow
      = Replace (joinWith (Sprint unixNow) segs) (ascii "%h") g.hostname) ∧
    (∀ (τ : Type) (lib : Lib τ) (now : τ), strftime lib g now
      = lib.Format (Replace (joinWith (Sprint (lib.Unix now)) segs) (ascii "%h") g.hostname)
          now) ∧
    (∀ t1 t2 : Int, t1 ≠ t2 → Sprint t1 ≠ Sprint t2) := by
  have key : ∀ unixNow : Int, substitute g unixNow
      = Replace (joinWith (Sprint unixNow) segs) (ascii "%h") g.hostname := by
    intro unixNow
    unfold substitute
    rw [hg, ascii_token]
    rw [ascii_token] at hsegs
    rw [Replace_joinWith (Sprint unixNow) segs hsegs]
  refine ⟨key, ?_, ?_⟩
  · intro τ lib now
    unfold strftime
    rw [key]
  · intro t1 t2 hne heq
    exact hne (Sprint_injective t1 t2 heq)

/-- C5 at a concrete input: the default template of the `logFile` flag. -/
theorem C5_epoch_token_witness :
    ((∀ seg ∈ [ascii "%Y/%m/%d/", ascii "_%h.log.lzo"], ¬ List.IsInfix (ascii "%s") seg) ∧
      (⟨ascii "%Y/%m/%d/%s_%h.log.lzo", 262144, -1, 2, ascii "h"⟩ : Globals).logFile
        = joinWith (ascii "%s") [ascii "%Y/%m/%d/", ascii "_%h.log.lzo"]) ∧
    ∀ unixNow : Int,
      substitute ⟨ascii "%Y/%m/%d/%s_%h.log.lzo", 262144, -1, 2, ascii "h"⟩ unixNow
        = Replace (joinWith (Sprint unixNow) [ascii "%Y/%m/%d/", ascii "_%h.log.lzo"])
            (ascii "%h") (ascii "h") :=
  ⟨⟨by decide, by decide⟩,
    (C5_epoch_token ⟨ascii "%Y/%m/%d/%s_%h.log.lzo", 262144, -1, 2, ascii "h"⟩
      [ascii "%Y/%m/%d/", ascii "_%h.log.lzo"] (by decide) (by decide)).1⟩

/-- C5 as stated fails: with the default template, two calls of the templater
made a minute apart, at the Unix times 1700000000 and 1700000060, substitute
two different numbers for `%s`, each the Unix time of its own call; with the
template `%s` alone the two paths are these two numbers. -/
theorem C5_counterexample :
    substitute ⟨ascii "%Y/%m/%d/%s_%h.log.lzo", 262144, -1, 2, ascii "h"⟩ 1700000000
      = ascii "%Y/%m/%d/1700000000_h.log.lzo" ∧
    substitute ⟨ascii "%Y/%m/%d/%s_%h.log.lzo", 262144, -1, 2, ascii "h"⟩ 1700000060
      = ascii "%Y/%m/%d/1700000060_h.log.lzo" ∧
    strftime Lib.plain ⟨ascii "%s", 262144, -1, 2, ascii "h"⟩ 1700000000
      = some (ascii "1700000000") ∧
    strftime Lib.plain ⟨ascii "%s", 262144, -1, 2, ascii "h"⟩ 1700000060
      = some (ascii "1700000060") ∧
    ascii "1700000000" ≠ ascii "1700000060" := by
  decide

/-! ## The line reader -/

theorem IndexByte_none (l : List Byte) (h : newline ∉ l) : IndexByte l newline = none := by
  induction l with
  | nil => rfl
  | cons b bs ih =>
    have hb : b ≠ newline := fun h' => h (by rw [h']; exact List.mem_cons_self _ _)
    have hbs : newline ∉ bs := fun h' => h (List.mem_cons_of_mem _ h')
    simp [IndexByte, hb, ih hbs]

theorem IndexByte_line (l rest : List Byte) (h : newline ∉ l) :
    IndexByte (l ++ newline :: rest) newline = some l.length := by
  induction l with
  | nil => simp [IndexByte]
  | cons b bs ih =>
    have hb : b ≠ newline := fun h' => h (by rw [h']; exact List.mem_cons_self _ _)
    have hbs : newline ∉ bs := fun h' => h (List.mem_cons_of_mem _ h')
    simp [IndexByte, hb, ih hbs]

theorem scanTokens_nil (fuel : Nat) : scanTokens fuel [] = [] := by
  cases fuel with
  | zero => rfl
  | succ fuel => simp [scanTokens, ScanLines, MaxScanTokenSize]

/-- One call of `Scan` on a stream that starts with a newline-terminated line
shorter than the token limit. -/
theorem scanTokens_line (fuel : Nat) (l rest : List Byte) (h : newline ∉ l)
    (hlen : l.length < MaxScanTokenSize) :
    scanTokens (fuel + 1) (l ++ newline :: rest) = dropCR l :: scanTokens fuel rest := by
  obtain ⟨k, hk⟩ : ∃ k, MaxScanTokenSize - l.length = k + 1 := ⟨MaxScanTokenSize - l.length - 1, by omega⟩
  have hwin : (l ++ newline :: rest).take MaxScanTokenSize = l ++ newline :: rest.take k := by
    rw [List.take_append_eq_append_take, List.take_of_length_le (Nat.le_of_lt hlen), hk]
    rfl
  have hdrop : (l ++ newline :: rest).drop (l.length + 1) = rest := by
    rw [List.drop_append]
    rfl
  rw [scanTokens, hwin]
  unfold ScanLines
  rw [IndexByte_line l _ h]
  simp only [List.length_append, List.length_cons, List.take_left, hdrop]
  simp

/-- The last call of `Scan` that returns a token, on a non-empty rest of
stream without newline and shorter than the token limit. -/
theorem scanTokens_last (fuel : Nat) (t : List Byte) (h : newline ∉ t) (hne : t ≠ [])
    (hlen : t.length < MaxScanTokenSize) : scanTokens (fuel + 1) t = [dropCR t] := by
  have hpos : t.length ≠ 0 := fun h' => hne (List.length_eq_zero.mp h')
  rw [scanTokens, List.take_of_length_le (Nat.le_of_lt hlen)]
  unfold ScanLines
  rw [IndexByte_none t h]
  simp [hlen, hpos, scanTokens_nil]

theorem terminated_cons (l : List Byte) (ls : List (List Byte)) (t : List Byte) :
    terminated (l :: ls) ++ t = l ++ newline :: (terminated ls ++ t) := by
  simp [terminated]

theorem scanTokens_terminated (ls : List (List Byte)) (t : List Byte)
    (ht : newline ∉ t ∧ t.length < MaxScanTokenSize) :
    ∀ fuel, ls.length + 1 ≤ fuel →
      (∀ l ∈ ls, newline ∉ l ∧ l.length < MaxScanTokenSize) →
      scanTokens fuel (terminated ls ++ t)
        = ls.map dropCR ++ (if t = [] then [] else [dropCR t]) := by
  induction ls with
  | nil =>
    intro fuel hf _
    obtain ⟨f, rfl⟩ : ∃ f, fuel = f + 1 := ⟨fuel - 1, by simp at hf; omega⟩
    by_cases hnil : t = []
    · simp [terminated, hnil, scanTokens_nil]
    · simp only [terminated, List.map_nil, List.flatten_nil, List.nil_append, hnil, if_false]
      exact scanTokens_last f t ht.1 hnil ht.2
  | cons l ls ih =>
    intro fuel hf hls
    obtain ⟨f, rfl⟩ : ∃ f, fuel = f + 1 := ⟨fuel - 1, by simp at hf; omega⟩
    have hl := hls l (List.mem_cons_self _ _)
    rw [terminated_cons, scanTokens_line f l _ hl.1 hl.2]
    rw [ih f (by simp at hf; omega) (fun l' h' => hls l' (List.mem_cons_of_mem _ h'))]
    simp

/-- A call of `Scan` on a rest of stream whose first `MaxScanTokenSize` bytes
hold no newline: the buffer fills up and the scan ends with `ErrTooLong`. -/
theorem scanTokens_long (fuel : Nat) (d : List Byte)
    (h : newline ∉ d.take MaxScanTokenSize) (hlen : MaxScanTokenSize ≤ d.length) :
    scanTokens fuel d = [] := by
  cases fuel with
  | zero => rfl
  | succ fuel =>
    rw [scanTokens]
    unfold ScanLines
    rw [IndexByte_none _ h]
    simp [Nat.not_lt.mpr hlen]

theorem scanTokens_terminated_long (ls : List (List Byte)) (d : List Byte)
    (h : newline ∉ d.take MaxScanTokenSize) (hlen : MaxScanTokenSize ≤ d.length) :
    ∀ fuel, ls.length ≤ fuel →
      (∀ l ∈ ls, newline ∉ l ∧ l.length < MaxScanTokenSize) →
      scanTokens fuel (terminated ls ++ d) = ls.map dropCR := by
  induction ls with
  | nil =>
    intro fuel _ _
    simpa [terminated] using scanTokens_long fuel d h hlen
  | cons l ls ih =>
    intro fuel hf hls
    obtain ⟨f, rfl⟩ : ∃ f, fuel = f + 1 := ⟨fuel - 1, by simp at hf; omega⟩
    have hl := hls l (List.mem_cons_self _ _)
    rw [terminated_cons, scanTokens_line f l _ hl.1 hl.2]
    rw [ih f (by simp at hf; omega) (fun l' h' => hls l' (List.mem_cons_of_mem _ h'))]
    simp

theorem terminated_length (ls : List (List Byte)) : ls.length ≤ (terminated ls).length := by
  induction ls with
  | nil => simp [terminated]
  | cons l ls ih =>
    have : (terminated (l :: ls)).length = l.length + 1 + (terminated ls).length := by
      simp [terminated]
      omega
    rw [this, List.length_cons]
    omega

theorem filterMap_dropCR (ls : List (List Byte)) :
    (ls.map dropCR).filterMap
        (fun text => if text.length > 0 then some (text ++ [newline]) else none)
      = (ls.map forwarded).flatten := by
  induction ls with
  | nil => rfl
  | cons l ls ih =>
    simp only [List.map_cons, List.flatten_cons]
    rw [← ih]
    by_cases h : (dropCR l).length > 0
    · simp [List.filterMap_cons, forwarded, h]
    · simp [List.filterMap_cons, forwarded, h]

theorem lineReader_short (ls : List (List Byte)) (t : List Byte)
    (hls : ∀ l ∈ ls, newline ∉ l ∧ l.length < MaxScanTokenSize)
    (ht : newline ∉ t ∧ t.length < MaxScanTokenSize) :
    lineReader (terminated ls ++ t) = (ls.map forwarded).flatten ++ forwarded t := by
  unfold lineReader
  rw [scanTokens_terminated ls t ht _
    (by have := terminated_length ls; simp only [List.length_append]; omega) hls]
  rw [List.filterMap_append, filterMap_dropCR]
  congr 1
  by_cases hnil : t = []
  · simp [hnil, forwarded, dropCR]
  · by_cases h : (dropCR t).length > 0
    · simp [hnil, forwarded, h]
    · simp [hnil, forwarded, h]

theorem lineReader_long (ls : List (List Byte)) (d : List Byte)
    (hls : ∀ l ∈ ls, newline ∉ l ∧ l.length < MaxScanTokenSize)
    (h : newline ∉ d.take MaxScanTokenSize) (hlen : MaxScanTokenSize ≤ d.length) :
    lineReader (terminated ls ++ d) = (ls.map forwarded).flatten := by
  unfold lineReader
  rw [scanTokens_terminated_long ls d h hlen _
    (by have := terminated_length ls; simp only [List.length_append]; omega) hls]
  exact filterMap_dropCR ls

theorem lineReader_replicate (n : Nat) (hn : MaxScanTokenSize ≤ n) (rest : List Byte) :
    lineReader (List.replicate n 97 ++ rest) = [] := by
  have hmem : newline ∉ (List.replicate n (97 : Byte) ++ rest).take MaxScanTokenSize := by
    rw [List.take_append_of_le_length (by simpa using hn)]
    intro h
    have := List.eq_of_mem_replicate (List.mem_of_mem_take h)
    exact absurd this (by decide)
  have h := lineReader_long [] (List.replicate n 97 ++ rest)
    (fun l hl => absurd hl (List.not_mem_nil l)) hmem
    (by simp only [List.length_append, List.length_replicate]; omega)
  simpa [terminated] using h

/-- C6, amended: for every byte stream received on a connection up to its
close, the lines pushed onto the line queue are, in the order read, the lines of
the stream up to the first one that reaches the token limit of the scanner,
each without one final carriage return if it has one and with a newline
appended; a line that is empty once the carriage return is dropped is not
pushed. When no line reaches the limit, the last part of the stream, which has
no trailing newline when the connection closes, counts as a line and is
forwarded like the others, with a newline added. When a line reaches the limit,
neither it nor anything behind it is pushed. -/
theorem C6_line_reader (ls : List (List Byte))
    (hls : ∀ l ∈ ls, newline ∉ l ∧ l.length < MaxScanTokenSize) :
    (∀ t : List Byte, newline ∉ t → t.length < MaxScanTokenSize →
      lineReader (terminated ls ++ t) = (ls.map forwarded).flatten ++ forwarded t) ∧
    (∀ d : List Byte, newline ∉ d.take MaxScanTokenSize → MaxScanTokenSize ≤ d.length →
      lineReader (terminated ls ++ d) = (ls.map forwarded).flatten) :=
  ⟨fun t h1 h2 => lineReader_short ls t hls ⟨h1, h2⟩,
    fun d h1 h2 => lineReader_long ls d hls h1 h2⟩

/-- C6 at a concrete input: the stream `ab\n\ncd\r\nef`, closed after `ef`. -/
theorem C6_line_reader_witness :
    (∀ l ∈ [ascii "ab", ascii "", ascii "cd\r"], newline ∉ l ∧ l.length < MaxScanTokenSize) ∧
    lineReader (terminated [ascii "ab", ascii "", ascii "cd\r"] ++ ascii "ef")
      = ([ascii "ab", ascii "", ascii "cd\r"].map forwarded).flatten ++ forwarded (ascii "ef") ∧
    lineReader (ascii "ab\n\ncd\r\nef") = [ascii "ab\n", ascii "cd\n", ascii "ef\n"] :=
  ⟨by decide,
    (C6_line_reader [ascii "ab", ascii "", ascii "cd\r"] (by decide)).1 (ascii "ef")
      (by decide) (by decide),
    by decide⟩

/-- C6 as stated fails: on the stream `ab\ncd`, closed after `cd`, the final
line `cd` is forwarded, with a newline added; on the stream `a\r\n` the line
pushed is `a\n`, not the line of the stream with its newline; and on a stream
that starts with a line of 65536 bytes nothing is pushed, neither that line nor
the line `b` behind it. -/
theorem C6_counterexample :
    lineReader (ascii "ab\ncd") = [ascii "ab\n", ascii "cd\n"] ∧
    lineReader (ascii "ab\ncd") ≠ [ascii "ab\n"] ∧
    lineReader (ascii "a\r\n") = [ascii "a\n"] ∧
    lineReader (ascii "a\r\n") ≠ [ascii "a\r\n"] ∧
    lineReader (List.replicate 65536 97 ++ ascii "\nb\n") = [] := by
  exact ⟨by decide, by decide, by decide, by decide,
    lineReader_replicate 65536 (by decide) (ascii "\nb\n")⟩

end RotateLogs
